import Mathlib

/-!
# Verification of pyactiveresource `activeresource.py`

A shallow embedding of `src/activeresource.py` (an ActiveResource-style REST
client) together with theorems settling the frozen claims about it.

Conventions used throughout:

* Python dictionaries are modelled as association lists that preserve
  insertion order; "set" results (such as the set of site-template
  placeholders) are modelled as lists whose membership is what matters.
* Python scalar values (`int`, `bool`, `None`, `str`) are modelled by the
  `Scalar` type; `str(x)` is modelled by `pyStr`, Python truthiness by
  `truthy`.
* The HTTP transport, the XML text parser (`ET.fromstring` /
  `util.xml_to_dict`'s text layer), and the inflection routine
  (`util.pluralize`) are external collaborators of the source file; where the
  claims need them they are passed in as function parameters, or modelled
  from the spec and marked `Modelled from the spec:` in their doc comment.
* Stateful methods become explicit state-passing functions; methods that
  perform HTTP requests take the transport as a function argument and return
  the value the Python method would return.
-/

/-! ## Small string and list helpers (kernel-reducible) -/

/-- Concatenate a list of strings. -/
def catStrings : List String → String
  | [] => ""
  | s :: t => s ++ catStrings t

/-- Order-preserving association-list lookup with string keys,
modelling Python `dict.get`/`[]` for the dictionaries we track. -/
def lookupStr {α : Type} (k : String) : List (String × α) → Option α
  | [] => none
  | (k', v) :: t => if k' = k then some v else lookupStr k t

/-- Key-membership test for association lists (Python `key in dict`). -/
def hasKeyStr {α : Type} (k : String) (l : List (String × α)) : Bool :=
  (lookupStr k l).isSome

/-- Membership test on a list of strings (Python `x in set`). -/
def memStr (k : String) : List String → Bool
  | [] => false
  | s :: t => if s = k then true else memStr k t

/-- Set a key in an association list: update in place if present, else
append at the end (Python `dict[k] = v` ordering behaviour). -/
def setKeyStr {α : Type} (k : String) (v : α) : List (String × α) → List (String × α)
  | [] => [(k, v)]
  | (k', v') :: t => if k' = k then (k', v) :: t else (k', v') :: setKeyStr k v t

/-! ## The URL template resolver

`ActiveResource._prefix` and `._prefix_parameters` delegate to Python's
`string.Template` with its default pattern
`\$(?:(?P<escaped>\$)|(?P<named>[_a-z][_a-z0-9]*)|{(?P<braced>[_a-z][_a-z0-9]*)}|(?P<invalid>))`
(compiled with `IGNORECASE`).  `string.Template` is standard-library code
outside this repository, so it is modelled here from its documented
semantics, which §4.1 of the spec restates: `$$` is an escaped dollar, `$id`
and `${id}` are placeholders whose identifiers start with a letter or
underscore and continue with letters, digits or underscores, and any other
`$` is an "invalid" occurrence that `safe_substitute` leaves in place.

To keep every definition structurally recursive (hence evaluable by
`decide`), the scanner works on a run-length pre-grouping of the character
list: maximal runs of identifier characters become single `Run.ids` tokens,
every other character is a `Run.ch` token.  This mirrors the regex exactly:
a maximal identifier-character run is precisely what the greedy `idpattern`
can consume. -/

/-- First character class of `string.Template`'s `idpattern` (with
`IGNORECASE`): underscore or an ASCII letter. -/
def isIdStart (c : Char) : Bool := c = '_' || c.isAlpha

/-- Continuation character class of the `idpattern`: identifier start or an
ASCII digit. -/
def isIdChar (c : Char) : Bool := isIdStart c || c.isDigit

/-- A token of the pre-grouped template text: a maximal run of
identifier characters, or a single other character. -/
inductive Run : Type where
  | ids : List Char → Run
  | ch : Char → Run
deriving DecidableEq, Repr

/-- Group a character list into `Run` tokens (maximal identifier runs). -/
def toRuns : List Char → List Run
  | [] => []
  | c :: rest =>
    let rs := toRuns rest
    if isIdChar c then
      match rs with
      | Run.ids nm :: r => Run.ids (c :: nm) :: r
      | _ => Run.ids [c] :: rs
    else
      Run.ch c :: rs

/-- One piece of a scanned template: literal character, escaped `$$`,
invalid lone `$`, `$name` placeholder, or `${name}` placeholder. -/
inductive Seg : Type where
  | lit : Char → Seg
  | esc : Seg
  | inval : Seg
  | named : String → Seg
  | braced : String → Seg
deriving DecidableEq, Repr

/-- Scan a run list into segments, following `string.Template`'s pattern:
at each `$`, try the escaped, named and braced alternatives in order and
fall back to an invalid lone `$` (which consumes only the `$`, scanning
resuming at the next character, exactly like the regex's empty `invalid`
group). -/
def parseRuns : List Run → List Seg
  | [] => []
  | Run.ids cs :: rest => cs.map Seg.lit ++ parseRuns rest
  | [Run.ch '$'] => [Seg.inval]
  | Run.ch '$' :: Run.ch '$' :: r2 => Seg.esc :: parseRuns r2
  | Run.ch '$' :: Run.ch '{' :: Run.ids nm :: Run.ch '}' :: r3 =>
    if isIdStart (nm.headD ' ') then Seg.braced (String.mk nm) :: parseRuns r3
    else
      -- invalid `$`: the regex keeps the `$` and resumes at `{`, so the
      -- brace, the identifier run and the closing brace all stay literal
      Seg.inval :: Seg.lit '{' :: (nm.map Seg.lit ++ (Seg.lit '}' :: parseRuns r3))
  | Run.ch '$' :: Run.ch '{' :: r2 =>
    -- no `{identifier}` follows: invalid `$`, `{` stays literal (`r2` cannot
    -- begin with an identifier run followed by `}` here)
    Seg.inval :: Seg.lit '{' :: parseRuns r2
  | Run.ch '$' :: Run.ids nm :: r2 =>
    if isIdStart (nm.headD ' ') then Seg.named (String.mk nm) :: parseRuns r2
    else Seg.inval :: (nm.map Seg.lit ++ parseRuns r2)
  | Run.ch '$' :: Run.ch c :: r2 =>
    -- `c` is neither `$` nor `{` (earlier alternatives), so it stays literal
    Seg.inval :: Seg.lit c :: parseRuns r2
  | Run.ch c :: rest => Seg.lit c :: parseRuns rest

/-- Scan a template string into segments. -/
def parseTemplate (s : String) : List Seg := parseRuns (toRuns s.data)

/-- The placeholder name carried by a segment, if any. -/
def segKey : Seg → Option String
  | Seg.named n => some n
  | Seg.braced n => some n
  | _ => none

/-- The placeholder names of a template, in scan order.  This embeds the
loop of `ActiveResource._prefix_parameters` (which collects the `named` and
`braced` groups of every match into a set); the set is modelled as a list
up to membership. -/
def templateKeys (s : String) : List String := (parseTemplate s).filterMap segKey

/-- Render one segment under a (partial) substitution mapping, following
`Template.safe_substitute`: placeholders found in the mapping are replaced,
missing ones are kept verbatim, `$$` renders as `$`, and an invalid `$`
is kept. -/
def renderSeg (f : String → Option String) : Seg → String
  | Seg.lit c => String.singleton c
  | Seg.esc => "$"
  | Seg.inval => "$"
  | Seg.named n =>
    match f n with
    | some v => v
    | none => "$" ++ n
  | Seg.braced n =>
    match f n with
    | some v => v
    | none => "$" ++ String.singleton '{' ++ n ++ String.singleton '}'

/-- `Template(s).safe_substitute(mapping)` where `mapping` is modelled as a
partial function. -/
def safeSubstitute (s : String) (f : String → Option String) : String :=
  catStrings ((parseTemplate s).map (renderSeg f))

/-- `re.sub('/$', '', path)`: removes a single trailing slash if present. -/
def stripTrailingSlash (p : String) : String :=
  if p.data.getLast? = some '/' then String.mk p.data.dropLast else p

/-- `ActiveResource._prefix(options)` (lines 321-334): strip a trailing `/`
from the site path, then `safe_substitute` it with a mapping that covers
every placeholder of the (unstripped) site path, defaulting missing options
to the empty string.  Option values are already strings here; the
path-builder wrappers apply `pyStr` first, modelling `'%s' % value`. -/
def resolveSitePath (site : String) (options : List (String × String)) : String :=
  safeSubstitute (stripTrailingSlash site)
    (fun k => if memStr k (templateKeys site) then some ((lookupStr k options).getD "") else none)

example : templateKeys "/posts/$post_id" = ["post_id"] := by decide
example : resolveSitePath "/posts/$post_id" [("post_id", "5")] = "/posts/5" := by decide
example : resolveSitePath "/posts/$post_id" [] = "/posts/" := by decide
example : resolveSitePath "/posts/" [] = "/posts" := by decide

/-! ## Python scalar values, truthiness and string conversion -/

/-- The Python scalar values the claims range over: integers, booleans,
`None` and strings.  (Floats are outside the scope of this embedding.) -/
inductive Scalar : Type where
  | int : Int → Scalar
  | bool : Bool → Scalar
  | null : Scalar
  | str : String → Scalar
deriving DecidableEq, Repr

/-- Python `str(x)` for a `Scalar` (as used by `'%s' % x`). -/
def pyStr : Scalar → String
  | Scalar.int n => toString n
  | Scalar.bool b => if b then "True" else "False"
  | Scalar.null => "None"
  | Scalar.str s => s

/-- Python truthiness of a `Scalar` (as used by `if id_:` and `if self.id:`). -/
def truthy : Scalar → Bool
  | Scalar.int n => n ≠ 0
  | Scalar.bool b => b
  | Scalar.null => false
  | Scalar.str s => s ≠ ""

/-! ## Query strings

`urllib.urlencode` is standard-library code outside this repository.
Modelled from the spec (§4.2): a non-empty mapping yields URL-encoded
`key=value` pairs joined with `&`, escaping reserved/unsafe characters per
form-encoding rules (space becomes `+`, unsafe bytes become `%XX`). -/

/-- A character `quote_plus` passes through unescaped: ASCII letters,
digits, and `_`, `.`, `-`. -/
def urlSafeChar (c : Char) : Bool :=
  c.isAlpha || c.isDigit || c = '_' || c = '.' || c = '-'

/-- Upper-case hex digit for a value below 16. -/
def hexDigit (n : Nat) : Char :=
  (List.getD ['0', '1', '2', '3', '4', '5', '6', '7', '8', '9',
              'A', 'B', 'C', 'D', 'E', 'F'] n '0')

/-- Form-encode one character (`quote_plus` on an ASCII string). -/
def quoteChar (c : Char) : String :=
  if urlSafeChar c then String.singleton c
  else if c = ' ' then "+"
  else String.mk ['%', hexDigit (c.toNat / 16 % 16), hexDigit (c.toNat % 16)]

/-- `urllib.quote_plus` on a string (ASCII modelling). -/
def quotePlus (s : String) : String := catStrings (s.data.map quoteChar)

/-- Modelled from the spec: `urllib.urlencode` over an ordered mapping with
scalar values (`str()` is applied to each value). -/
def urlencode (q : List (String × Scalar)) : String :=
  match q with
  | [] => ""
  | kv :: rest =>
    quotePlus kv.1 ++ "=" ++ quotePlus (pyStr kv.2) ++
      catStrings (rest.map (fun kv' => "&" ++ quotePlus kv'.1 ++ "=" ++ quotePlus (pyStr kv'.2)))

/-- `ActiveResource._query_string` (lines 240-252): empty options give the
empty string, otherwise `?` followed by the encoded pairs. -/
def queryString (q : List (String × Scalar)) : String :=
  if q.isEmpty then "" else "?" ++ urlencode q

example : queryString [] = "" := by decide
example : queryString [("active", Scalar.int 1)] = "?active=1" := by decide
example : queryString [("a b", Scalar.str "c&d")] = "?a+b=c%26d" := by decide

/-! ## The type descriptor (`ResourceMeta`) -/

/-- One step of `re.sub(r'\B((?<=[a-z])[A-Z]|[A-Z](?=[a-z]))', r'_\1', name)`
for a character with its predecessor and successor: insert `_` before an
upper-case letter that follows a lower-case letter or precedes one.  For
all-word-character class names `\B` simply excludes position 0, which the
wrapper below handles by never applying this to the first character. -/
def camelStep (prev c : Char) (next : Option Char) : List Char :=
  if c.isUpper && (prev.isLower || (match next with
      | some n => n.isLower
      | none => false)) then ['_', c]
  else [c]

/-- Tail of the camel-case conversion, carrying the previous character. -/
def camelGo (prev : Char) : List Char → List Char
  | [] => []
  | c :: rest => camelStep prev c rest.head? ++ camelGo c rest

/-- The singular-name derivation of `ResourceMeta.__new__` (lines 50-54):
underscore-insert at camel-case boundaries, then lower-case. -/
def camelToUnder (s : String) : String :=
  match s.data with
  | [] => ""
  | c :: rest => String.mk ((c :: camelGo c rest).map Char.toLower)

example : camelToUnder "Comment" = "comment" := by decide
example : camelToUnder "MySQLDatabase" = "my_sql_database" := by decide

/-- Modelled from the spec: the inflection collaborator `util.pluralize`
(§6: "a fixed English-inflection table/algorithm (irregulars + suffix
rules)").  Suffix rules: sibilant endings take `es`, consonant-`y` becomes
`ies`, everything else takes `s`. -/
def pluralize (w : String) : String :=
  let cs := w.data
  let lastTwo := cs.reverse.take 2
  if cs.getLast? = some 's' || cs.getLast? = some 'x' || cs.getLast? = some 'z' ||
      lastTwo = ['h', 'c'] || lastTwo = ['h', 's'] then w ++ "es"
  else if cs.getLast? = some 'y' &&
      !(match cs.reverse with
        | _ :: p :: _ => p = 'a' || p = 'e' || p = 'i' || p = 'o' || p = 'u'
        | _ => false) then String.mk cs.dropLast ++ "ies"
  else w ++ "s"

example : pluralize "comment" = "comments" := by decide
example : pluralize "box" = "boxes" := by decide
example : pluralize "party" = "parties" := by decide

/-- The per-type state the embedded class methods consult: the class name,
the derived singular/plural names, and the path component of `_site`.
(`user/password/timeout/headers` only configure the transport collaborator
and are not modelled.) -/
structure ResClass : Type where
  name : String
  singular : String
  plural : String
  site : String
deriving DecidableEq, Repr

/-- `ResourceMeta.__new__` (lines 41-59): compute `_singular` from the class
name unless an explicit non-falsy `_singular` is supplied, then `_plural` by
inflection unless an explicit non-falsy `_plural` is supplied.  `none` models
an absent key and `some ""` a falsy explicit value, both of which trigger
derivation. -/
def mkResourceClass (name : String) (explicitSingular explicitPlural : Option String)
    (site : String) : ResClass :=
  let singular :=
    match explicitSingular with
    | some s => if s = "" then camelToUnder name else s
    | none => camelToUnder name
  let plural :=
    match explicitPlural with
    | some p => if p = "" then pluralize singular else p
    | none => pluralize singular
  { name := name, singular := singular, plural := plural, site := site }

/-! ## Option splitting and path building -/

/-- `ActiveResource._prefix_parameters` (lines 300-319) as a predicate:
the placeholder-name set of the site path. -/
def sitePathParams (cls : ResClass) : List String := templateKeys cls.site

/-- `ActiveResource._split_options` (lines 140-157): partition an options
mapping into prefix options (keys that are site placeholders) and query
options (everything else), preserving iteration order. -/
def splitOptions (cls : ResClass) (options : List (String × Scalar)) :
    List (String × Scalar) × List (String × Scalar) :=
  match options with
  | [] => ([], [])
  | kv :: rest =>
    let (po, qo) := splitOptions cls rest
    if memStr kv.1 (sitePathParams cls) then (kv :: po, qo) else (po, kv :: qo)

/-- `ActiveResource._prefix` applied to scalar-valued prefix options:
`safe_substitute` stringifies each value with `%s`. -/
def sitePrefix (cls : ResClass) (po : List (String × Scalar)) : String :=
  resolveSitePath cls.site (po.map (fun kv => (kv.1, pyStr kv.2)))

/-- `ActiveResource._element_path` (lines 254-274) with the id already
stringified: `{prefix}/{plural}/{id}.xml{query}`. -/
def elementPathStr (cls : ResClass) (idStr : String)
    (po qo : List (String × Scalar)) : String :=
  sitePrefix cls po ++ "/" ++ cls.plural ++ "/" ++ idStr ++ "." ++ "xml" ++ queryString qo

/-- `ActiveResource._element_path` for a scalar id (`'%(id)s' % id_`). -/
def elementPath (cls : ResClass) (id_ : Scalar)
    (po qo : List (String × Scalar)) : String :=
  elementPathStr cls (pyStr id_) po qo

/-- `ActiveResource._collection_path` (lines 276-298):
`{prefix}/{plural}.xml{query}`. -/
def collectionPath (cls : ResClass) (po qo : List (String × Scalar)) : String :=
  sitePrefix cls po ++ "/" ++ cls.plural ++ "." ++ "xml" ++ queryString qo

/-- The `Comment` scenario class of the spec (§8). -/
def commentClass : ResClass := mkResourceClass "Comment" none none "/posts/$post_id"

example : elementPath commentClass (Scalar.int 1) [("post_id", Scalar.int 5)] [] =
    "/posts/5/comments/1.xml" := by decide
example : collectionPath (mkResourceClass "Comment" none none "") [] [("active", Scalar.int 1)] =
    "/comments.xml?active=1" := by decide

/-! ## Generic XML documents and attribute graphs

The wire format handled by `util.to_xml` / `util.xml_to_dict` and
`ET.fromstring`.  Those helpers live outside this repository, so the
document-level converter below is modelled from the spec (§4.3), while the
text layer (`ET.fromstring`) is passed in as a collaborator parameter
wherever an operation consumes a raw response body.

All recursive types are mutual inductives (rather than nested `List`s) so
that every function on them is structurally recursive and evaluable by
`decide`. -/

mutual
/-- A parsed XML element: tag, ordered children, text content. -/
inductive El : Type where
  | mk : String → ElList → String → El
deriving DecidableEq, Repr
/-- An ordered list of XML elements. -/
inductive ElList : Type where
  | enil : ElList
  | econs : El → ElList → ElList
deriving DecidableEq, Repr
end

/-- The tag of an element. -/
def elTag : El → String
  | El.mk t _ _ => t

/-- The children of an element. -/
def elChildren : El → ElList
  | El.mk _ cs _ => cs

/-- The text content of an element. -/
def elText : El → String
  | El.mk _ _ s => s

/-- Append element lists. -/
def elAppend : ElList → ElList → ElList
  | ElList.enil, ys => ys
  | ElList.econs x xs, ys => ElList.econs x (elAppend xs ys)

/-- Convert an element list to an ordinary list. -/
def elsToList : ElList → List El
  | ElList.enil => []
  | ElList.econs e t => e :: elsToList t

mutual
/-- An attribute value: scalar, nested mapping, or list of mappings —
exactly the shapes §3 of the spec allows for `attributes` values. -/
inductive AVal : Type where
  | scalar : Scalar → AVal
  | amap : AttrMap → AVal
  | alist : MapList → AVal
deriving DecidableEq, Repr
/-- An ordered attribute mapping (a Python dict of attributes). -/
inductive AttrMap : Type where
  | anil : AttrMap
  | acons : String → AVal → AttrMap → AttrMap
deriving DecidableEq, Repr
/-- An ordered list of attribute mappings. -/
inductive MapList : Type where
  | mnil : MapList
  | mcons : AttrMap → MapList → MapList
deriving DecidableEq, Repr
end

/-- Lookup in an `AttrMap` (Python `dict.get`). -/
def lookupA : AttrMap → String → Option AVal
  | AttrMap.anil, _ => none
  | AttrMap.acons k' v t, k => if k' = k then some v else lookupA t k

/-- Key membership in an `AttrMap`. -/
def hasKeyA (m : AttrMap) (k : String) : Bool := (lookupA m k).isSome

/-- Length of a `MapList`. -/
def mlen : MapList → Nat
  | MapList.mnil => 0
  | MapList.mcons _ t => 1 + mlen t

/-! ### Scalar rendering and coercion (spec-modelled)

Modelled from the spec: scalars serialize as text content and parse back
with "a best-effort type coercion (integer, float, boolean, null, else
string)" (§4.3).  Floats are out of scope of this embedding; `None`
serializes as empty text and empty text coerces to null. -/

/-- Decimal digits to a natural number. -/
def digitsToNat (cs : List Char) : Nat :=
  cs.foldl (fun a c => a * 10 + (c.toNat - '0'.toNat)) 0

/-- Non-empty all-digit character list. -/
def isDigits (cs : List Char) : Bool := !cs.isEmpty && cs.all Char.isDigit

/-- Best-effort integer parse (`int(s)` modulo whitespace/sign corners). -/
def strToIntOpt (s : String) : Option Int :=
  match s.data with
  | '-' :: rest => if isDigits rest then some (-(digitsToNat rest : Int)) else none
  | cs => if isDigits cs then some ((digitsToNat cs : Nat) : Int) else none

/-- Modelled from the spec: render a scalar as XML text content. -/
def renderScalar : Scalar → String
  | Scalar.int n => toString n
  | Scalar.bool b => if b then "true" else "false"
  | Scalar.null => ""
  | Scalar.str s => s

/-- Modelled from the spec: best-effort scalar coercion of text content
(integer, boolean, null for empty text, else string). -/
def coerce (s : String) : Scalar :=
  if s = "" then Scalar.null
  else
    match strToIntOpt s with
    | some n => Scalar.int n
    | none =>
      if s = "true" then Scalar.bool true
      else if s = "false" then Scalar.bool false
      else Scalar.str s

/-- Scalar normalization: what a scalar becomes after one serialize/parse
round trip ("scalars equal after coercion"). -/
def normScalar (s : Scalar) : Scalar := coerce (renderScalar s)

example : normScalar (Scalar.int (-7)) = Scalar.int (-7) := by decide
example : normScalar (Scalar.str "12") = Scalar.int 12 := by decide
example : normScalar Scalar.null = Scalar.null := by decide
example : normScalar (Scalar.bool true) = Scalar.bool true := by decide

/-! ### Serialization: attribute mapping → XML children (spec-modelled)

Modelled from the spec (§4.3): a scalar becomes one element with text
content, a nested mapping becomes one element with children, and a list
becomes repeated sibling elements, one per member, all under the entry's
key as tag. -/

mutual
def serializeMap : AttrMap → ElList
  | AttrMap.anil => ElList.enil
  | AttrMap.acons k v t => elAppend (serializeEntry k v) (serializeMap t)
def serializeEntry : String → AVal → ElList
  | k, AVal.scalar s => ElList.econs (El.mk k ElList.enil (renderScalar s)) ElList.enil
  | k, AVal.amap m => ElList.econs (El.mk k (serializeMap m) "") ElList.enil
  | k, AVal.alist l => serializeSiblings k l
def serializeSiblings : String → MapList → ElList
  | _, MapList.mnil => ElList.enil
  | k, MapList.mcons m t => ElList.econs (El.mk k (serializeMap m) "") (serializeSiblings k t)
end

/-! ### Parsing: XML children → attribute mapping (spec-modelled)

Modelled from the spec (§4.3): each child tag becomes a key; a child with
children becomes a nested mapping; a repeated tag name (multiple same-named
siblings) becomes an ordered list of mappings; other children become
coerced scalars. -/

/-- A parsed element body: leaf text, or the mapping of its children. -/
inductive BodyPre : Type where
  | leaf : String → BodyPre
  | node : AttrMap → BodyPre
deriving DecidableEq, Repr

/-- Add one tagged body to tag groups: append to the existing group for the
tag, or open a new group at the end. -/
def addGroup : List (String × List BodyPre) → String → BodyPre → List (String × List BodyPre)
  | [], t, b => [(t, [b])]
  | (t0, bs) :: rest, t, b =>
    if t0 = t then (t0, bs ++ [b]) :: rest else (t0, bs) :: addGroup rest t b

/-- Group a tagged body list by tag, preserving first-occurrence order. -/
def collectGroups (l : List (String × BodyPre)) : List (String × List BodyPre) :=
  l.foldl (fun acc tb => addGroup acc tb.1 tb.2) []

/-- The mapping carried by a body (a leaf carries the empty mapping). -/
def bodyMap : BodyPre → AttrMap
  | BodyPre.leaf _ => AttrMap.anil
  | BodyPre.node m => m

/-- Convert a list of mappings to a `MapList`. -/
def toMapList : List AttrMap → MapList
  | [] => MapList.mnil
  | m :: t => MapList.mcons m (toMapList t)

/-- Turn one tag group into an attribute value: a lone child is a scalar
(from its text) or nested mapping (from its children); repeated same-named
siblings are a list of mappings. -/
def finalizeGroup : List BodyPre → AVal
  | [] => AVal.alist MapList.mnil
  | [BodyPre.leaf s] => AVal.scalar (coerce s)
  | [BodyPre.node m] => AVal.amap m
  | b1 :: b2 :: bs => AVal.alist (toMapList ((b1 :: b2 :: bs).map bodyMap))

/-- Build an `AttrMap` from entry pairs. -/
def entriesToMap : List (String × AVal) → AttrMap
  | [] => AttrMap.anil
  | (k, v) :: t => AttrMap.acons k v (entriesToMap t)

/-- Assemble grouped bodies into the attribute mapping. -/
def groupFinalize (l : List (String × BodyPre)) : AttrMap :=
  entriesToMap ((collectGroups l).map (fun g => (g.1, finalizeGroup g.2)))

mutual
/-- Parse one element into a body: a childless element is leaf text, one
with children is the grouped mapping of those children. -/
def parseBody : El → BodyPre
  | El.mk _ ElList.enil text => BodyPre.leaf text
  | El.mk _ (ElList.econs c t) _ =>
    BodyPre.node (groupFinalize ((elTag c, parseBody c) :: parseEls t))
/-- Tag each child with its parsed body, in order. -/
def parseEls : ElList → List (String × BodyPre)
  | ElList.enil => []
  | ElList.econs e t => (elTag e, parseBody e) :: parseEls t
end

/-- Modelled from the spec: `util.xml_to_dict` on an already-parsed
document — the attribute mapping formed from the root's children
("each child tag becomes a key", §4.3). -/
def treeToDict (e : El) : AttrMap := groupFinalize (parseEls (elChildren e))

/-! ### Structure-preserving scalar normalization and well-formedness -/

mutual
/-- Normalize every scalar in a value by one render/coerce round trip,
keeping the structure unchanged. -/
def normVal : AVal → AVal
  | AVal.scalar s => AVal.scalar (normScalar s)
  | AVal.amap m => AVal.amap (normMap m)
  | AVal.alist l => AVal.alist (normList l)
def normMap : AttrMap → AttrMap
  | AttrMap.anil => AttrMap.anil
  | AttrMap.acons k v t => AttrMap.acons k (normVal v) (normMap t)
def normList : MapList → MapList
  | MapList.mnil => MapList.mnil
  | MapList.mcons m t => MapList.mcons (normMap m) (normList t)
end

mutual
/-- Well-formed value for the wire round trip: nested mappings are
non-empty and lists have at least two members (so repeated siblings signal
a collection when parsed back). -/
def wfVal : AVal → Bool
  | AVal.scalar _ => true
  | AVal.amap AttrMap.anil => false
  | AVal.amap (AttrMap.acons k v t) => wfMap (AttrMap.acons k v t)
  | AVal.alist l => decide (2 ≤ mlen l) && wfList l
/-- Well-formed mapping: duplicate-free keys, well-formed values. -/
def wfMap : AttrMap → Bool
  | AttrMap.anil => true
  | AttrMap.acons k v t => !hasKeyA t k && wfVal v && wfMap t
/-- Well-formed map list: all members well-formed mappings. -/
def wfList : MapList → Bool
  | MapList.mnil => true
  | MapList.mcons m t => wfMap m && wfList t
end

example :
    treeToDict (El.mk "comment"
      (serializeMap (AttrMap.acons "id" (AVal.scalar (Scalar.int 1))
        (AttrMap.acons "body" (AVal.scalar (Scalar.str "hi")) AttrMap.anil))) "") =
    AttrMap.acons "id" (AVal.scalar (Scalar.int 1))
      (AttrMap.acons "body" (AVal.scalar (Scalar.str "hi")) AttrMap.anil) := by decide

/-! ## Resource instances

`ActiveResource.__init__` stores `attributes` (a dict whose values may be
nested `ActiveResource` instances or lists of them, built by `_update`) and
`_prefix_options`. -/

mutual
/-- A stored attribute value: scalar, nested resource instance, or list of
resource instances — the shapes `_update` produces. -/
inductive RVal : Type where
  | rscalar : Scalar → RVal
  | robj : Res → RVal
  | rlist : ResList → RVal
deriving DecidableEq, Repr
/-- A resource instance: its attribute mapping and its prefix options. -/
inductive Res : Type where
  | mk : RAttrs → List (String × Scalar) → Res
deriving DecidableEq, Repr
/-- An ordered attribute mapping with stored values. -/
inductive RAttrs : Type where
  | rnil : RAttrs
  | rcons : String → RVal → RAttrs → RAttrs
deriving DecidableEq, Repr
/-- An ordered list of resource instances. -/
inductive ResList : Type where
  | lnil : ResList
  | lcons : Res → ResList → ResList
deriving DecidableEq, Repr
end

/-- The attribute mapping of an instance. -/
def resAttrs : Res → RAttrs
  | Res.mk a _ => a

/-- The prefix options of an instance. -/
def resPrefixOptions : Res → List (String × Scalar)
  | Res.mk _ po => po

/-- Lookup in a stored attribute mapping. -/
def lookupR : RAttrs → String → Option RVal
  | RAttrs.rnil, _ => none
  | RAttrs.rcons k' v t, k => if k' = k then some v else lookupR t k

/-- `self.attributes.get('id')` — `None` when unset. -/
def idOfRes (r : Res) : Option RVal := lookupR (resAttrs r) "id"

/-- Python truthiness of a stored value (`if self.id:`): instances are
truthy, lists are truthy when non-empty. -/
def truthyR : RVal → Bool
  | RVal.rscalar s => truthy s
  | RVal.robj _ => true
  | RVal.rlist ResList.lnil => false
  | RVal.rlist (ResList.lcons _ _) => true

/-- Truthiness of an optional stored value (`None` is falsy). -/
def truthyROpt : Option RVal → Bool
  | none => false
  | some v => truthyR v

/-- `'%s' % value` for a stored value.  All the claims use scalar ids;
`str()` of a nested instance or list (which would call `__repr__`
recursively) is modelled opaquely. -/
def rvalStr : RVal → String
  | RVal.rscalar s => pyStr s
  | RVal.robj _ => "<resource>"
  | RVal.rlist _ => "<list>"

/-- `'%s' % self.id` where a missing id is Python `None`. -/
def rvalStrOpt : Option RVal → String
  | none => "None"
  | some v => rvalStr v

/-! ### `_update` and `to_dict` (lines 473-496 and 359-369) -/

mutual
/-- The per-value conversion of `_update`: a dict becomes a nested instance
`self.__class__(value)` (with default empty prefix options), a list becomes
a list of instances, anything else is stored as is. -/
def updateVal : AVal → RVal
  | AVal.scalar s => RVal.rscalar s
  | AVal.amap m => RVal.robj (Res.mk (updateMap m) [])
  | AVal.alist l => RVal.rlist (updateList l)
/-- `_update`'s loop over `attributes.items()`, building the fresh
`self.attributes` dict. -/
def updateMap : AttrMap → RAttrs
  | AttrMap.anil => RAttrs.rnil
  | AttrMap.acons k v t => RAttrs.rcons k (updateVal v) (updateMap t)
/-- `[self.__class__(child) for child in value]`. -/
def updateList : MapList → ResList
  | MapList.mnil => ResList.lnil
  | MapList.mcons m t => ResList.lcons (Res.mk (updateMap m) []) (updateList t)
end

/-- `ActiveResource.__init__(attributes, prefix_options=po)`: store the
prefix options and run `_update` on the attribute dict. -/
def initRes (attributes : AttrMap) (po : List (String × Scalar)) : Res :=
  Res.mk (updateMap attributes) po

mutual
/-- `to_dict`'s per-value conversion: lists and nested instances are
unwrapped recursively, other values returned as is. -/
def toDictVal : RVal → AVal
  | RVal.rscalar s => AVal.scalar s
  | RVal.robj r => AVal.amap (toDictRes r)
  | RVal.rlist l => AVal.alist (toDictList l)
/-- `ActiveResource.to_dict()`. -/
def toDictRes : Res → AttrMap
  | Res.mk attrs _ => toDictAttrs attrs
/-- `to_dict`'s loop over `self.attributes`. -/
def toDictAttrs : RAttrs → AttrMap
  | RAttrs.rnil => AttrMap.anil
  | RAttrs.rcons k v t => AttrMap.acons k (toDictVal v) (toDictAttrs t)
/-- `[i.to_dict() for i in value]`. -/
def toDictList : ResList → MapList
  | ResList.lnil => MapList.mnil
  | ResList.lcons r t => MapList.mcons (toDictRes r) (toDictList t)
end

/-! ### `__getattr__` (lines 425-441) -/

/-- `ActiveResource.__getattr__`: `id` always resolves to
`self.attributes.get('id')` (so a missing id reads as `None`); any other
name resolves to its stored attribute value if present, else raises
`AttributeError(name)` — modelled as `Except` carrying the missing name. -/
def getattrRes (r : Res) (name : String) : Except String RVal :=
  if name = "id" then
    Except.ok ((lookupR (resAttrs r) "id").getD (RVal.rscalar Scalar.null))
  else
    match lookupR (resAttrs r) name with
    | some v => Except.ok v
    | none => Except.error name

/-! ### `to_xml` (lines 372-384)

`util.to_xml(self.to_dict(), root=root, header=header)` — the text layer is
modelled from the spec: nested elements between tag brackets, the root tag
defaulting to the type's singular name, an XML declaration header
prepended by default. -/

mutual
/-- Modelled from the spec: serialize an element tree to text. -/
def renderEl : El → String
  | El.mk tag cs text => "<" ++ tag ++ ">" ++ text ++ renderEls cs ++ "</" ++ tag ++ ">"
def renderEls : ElList → String
  | ElList.enil => ""
  | ElList.econs e t => renderEl e ++ renderEls t
end

/-- The XML declaration header `util.to_xml` prepends by default. -/
def xmlHeader : String := "<?xml version=\"1.0\" encoding=\"UTF-8\"?>"

/-- The element tree `to_xml` serializes: root tag (the type's singular
name by default) over the serialized `to_dict` attribute graph. -/
def toXmlTree (cls : ResClass) (r : Res) : El :=
  El.mk cls.singular (serializeMap (toDictRes r)) ""

/-- `ActiveResource.to_xml()` with default arguments, as used by `save`. -/
def toXmlString (cls : ResClass) (r : Res) : String :=
  xmlHeader ++ renderEl (toXmlTree cls r)

/-! ## HTTP requests and the class-level operations

The transport collaborator (`connection.Connection`) is passed in as a
function: `get`/`head` oracles for the finders, a full request oracle for
`save`.  A transport error is `connection.Error`; the XML text-parse
failure raised through `util.xml_to_dict`/`ET.fromstring` is a distinct
error, matching the source's distinct `except` clauses. -/

/-- HTTP verb. -/
inductive HttpMethod : Type where
  | get | post | put | delete | head
deriving DecidableEq, Repr

/-- An HTTP request as issued by the embedded operations. -/
structure HttpReq : Type where
  method : HttpMethod
  path : String
  body : Option String
deriving DecidableEq, Repr

/-- `connection.Error`, the transport failure `exists` catches. -/
inductive ConnError : Type where
  | err
deriving DecidableEq, Repr

/-- The parse failure signalled while turning a response body into an
attribute dict (the `Error` that `save` catches). -/
inductive UtilError : Type where
  | err
deriving DecidableEq, Repr

/-- Truthiness of the optional `id_` argument (`if id_:` in `find`). -/
def truthySOpt : Option Scalar → Bool
  | none => false
  | some s => truthy s

/-- The path `_find_single` (lines 159-173) requests: split the keyword
options and build the element path. -/
def findSinglePath (cls : ResClass) (id_ : Scalar) (kwargs : List (String × Scalar)) : String :=
  elementPath cls id_ (splitOptions cls kwargs).1 (splitOptions cls kwargs).2

/-- `_build_object` (lines 211-223): parse the body into an attribute dict
and construct an instance with the given (defaulting to empty) prefix
options. -/
def buildObject (tree : El) (po : List (String × Scalar)) : Res :=
  initRes (treeToDict tree) po

/-- `_find_single`: GET the element path and build one object (note:
`_build_object` is called without prefix options there). -/
def findSingle (cls : ResClass) (id_ : Scalar) (kwargs : List (String × Scalar))
    (get : String → String) (parseText : String → Except UtilError El) :
    Except UtilError Res :=
  match parseText (get (findSinglePath cls id_ kwargs)) with
  | Except.error e => Except.error e
  | Except.ok tree => Except.ok (buildObject tree [])

/-- The path `_find_every` (lines 192-209) requests: an explicit `from_`
path with the encoded kwargs appended, or the collection path from split
options. -/
def findEveryPath (cls : ResClass) (from_ : Option String)
    (kwargs : List (String × Scalar)) : String :=
  match from_ with
  | some f => f ++ queryString kwargs
  | none => collectionPath cls (splitOptions cls kwargs).1 (splitOptions cls kwargs).2

/-- `_build_list` (lines 225-238): one object per child of the response
root, all sharing the caller's prefix options. -/
def buildList (tree : El) (po : List (String × Scalar)) : List Res :=
  (elsToList (elChildren tree)).map (fun c => buildObject c po)

/-- `_find_every`: GET the collection (or explicit) path and build the
list; with `from_` the prefix options passed to `_build_list` are `None`
(modelled as `[]`, which `_build_object`'s falsiness check also yields). -/
def findEvery (cls : ResClass) (from_ : Option String) (kwargs : List (String × Scalar))
    (get : String → String) (parseText : String → Except UtilError El) :
    Except UtilError (List Res) :=
  let po := match from_ with
    | some _ => []
    | none => (splitOptions cls kwargs).1
  match parseText (get (findEveryPath cls from_ kwargs)) with
  | Except.error e => Except.error e
  | Except.ok tree => Except.ok (buildList tree po)

/-- The path `find` ends up requesting. -/
def findRequestPath (cls : ResClass) (id_ : Option Scalar) (from_ : Option String)
    (kwargs : List (String × Scalar)) : String :=
  if truthySOpt id_ then findSinglePath cls (id_.getD Scalar.null) kwargs
  else findEveryPath cls from_ kwargs

/-- `ActiveResource.find` (lines 86-104): `if id_:` dispatches on the
truthiness of the id — a truthy id fetches one resource, anything else
(including `0`, `''` and `None`) fetches the collection. -/
def find (cls : ResClass) (id_ : Option Scalar) (from_ : Option String)
    (kwargs : List (String × Scalar)) (get : String → String)
    (parseText : String → Except UtilError El) : Except UtilError (Res ⊕ List Res) :=
  if truthySOpt id_ then
    (findSingle cls (id_.getD Scalar.null) kwargs get parseText).map Sum.inl
  else
    (findEvery cls from_ kwargs get parseText).map Sum.inr

/-- The path `_find_one` (lines 176-190) passes to `connection.get`: the
source computes `path = from_ + cls._query_string(query_options)` on line
189 but then issues `get(from_, ...)` on line 190, so the computed path is
dead and the query string is dropped. -/
def findOneFetchPath (from_ : String) (query_options : List (String × Scalar)) : String :=
  let _path := from_ ++ queryString query_options
  from_

/-- `ActiveResource.find_one(from_, **kwargs)` (lines 106-119 and
176-190). -/
def findOne (from_ : String) (kwargs : List (String × Scalar))
    (get : String → String) (parseText : String → Except UtilError El) :
    Except UtilError Res :=
  match parseText (get (findOneFetchPath from_ kwargs)) with
  | Except.error e => Except.error e
  | Except.ok tree => Except.ok (buildObject tree [])

/-- `ActiveResource.exists` (lines 121-137): HEAD the element path, `True`
on success, `False` when the transport signals `connection.Error`. -/
def existsRes (cls : ResClass) (id_ : Scalar) (kwargs : List (String × Scalar))
    (headReq : String → Except ConnError Unit) : Bool :=
  match headReq (elementPath cls id_ (splitOptions cls kwargs).1 (splitOptions cls kwargs).2) with
  | Except.ok _ => true
  | Except.error _ => false

/-! ### `save` (lines 386-411) -/

/-- The request `save` issues: PUT to the element path when `self.id` is
truthy, POST to the collection path otherwise, in both cases with
`self.to_xml()` as body and `self._prefix_options` as prefix options. -/
def saveRequest (cls : ResClass) (r : Res) : HttpReq :=
  if truthyROpt (idOfRes r) then
    HttpReq.mk HttpMethod.put
      (elementPathStr cls (rvalStrOpt (idOfRes r)) (resPrefixOptions r) [])
      (some (toXmlString cls r))
  else
    HttpReq.mk HttpMethod.post
      (collectionPath cls (resPrefixOptions r) [])
      (some (toXmlString cls r))

/-- `ActiveResource.save`: issue the request; try to parse the response
into attributes, and on parse failure (`except Error`) return leaving the
instance untouched (the method then returns `None`); on success replace the
whole attribute mapping via `_update` and return the raw response body. -/
def save (cls : ResClass) (r : Res) (doReq : HttpReq → String)
    (parseText : String → Except UtilError El) : Res × Option String :=
  let response := doReq (saveRequest cls r)
  match parseText response with
  | Except.error _ => (r, none)
  | Except.ok tree => (Res.mk (updateMap (treeToDict tree)) (resPrefixOptions r), some response)

/-! ### `__setattr__` (lines 443-462)

The write path manipulates three dictionaries: the instance `__dict__`, the
class `__dict__`, and `self.attributes` (which is itself the value of the
`__dict__` entry `"attributes"`).  A `DV` value is either a plain stored
value or one of those nested dictionaries. -/

/-- A value stored in an instance or class `__dict__`. -/
inductive DV : Type where
  | val : Scalar → DV
  | dictv : List (String × Scalar) → DV
deriving DecidableEq, Repr

/-- `self.attributes[name] = value`: update the dict stored under the
`"attributes"` key of the instance `__dict__` (aliasing `self.attributes`). -/
def setAttrInDict (st : List (String × DV)) (name : String) (v : Scalar) :
    List (String × DV) :=
  match lookupStr "attributes" st with
  | some (DV.dictv d) => setKeyStr "attributes" (DV.dictv (setKeyStr name v d)) st
  | _ => st

/-- The `TypeError` Python raises on item assignment into a read-only
mapping. -/
inductive PyTypeError : Type where
  | err
deriving DecidableEq, Repr

deriving instance DecidableEq for Except

/-- `ActiveResource.__setattr__(name, value)` as a transition on the
instance `__dict__` (the class `__dict__` `cd` is consulted but can never
change): after initialization, a name already in the instance `__dict__`
is updated there (line 455, repeated verbatim by line 462); else a name
found in the class `__dict__` reaches
`self.__class__.__dict__[name] = value` (line 458) — but on a Python 2
new-style class `cls.__dict__` is a read-only `dictproxy`, so that
statement raises `TypeError` before any slot changes and line 462 is
never executed; else the value is added to `self.attributes` (line 461)
and line 462 also records it in the instance `__dict__`.  Before
initialization only line 462 runs. -/
def setattrRes (cd st : List (String × DV)) (name : String) (v : Scalar) :
    Except PyTypeError (List (String × DV)) :=
  if hasKeyStr "_initialized" st then
    if hasKeyStr name st then
      Except.ok (setKeyStr name (DV.val v) (setKeyStr name (DV.val v) st))
    else if hasKeyStr name cd then
      Except.error PyTypeError.err
    else
      Except.ok (setKeyStr name (DV.val v) (setAttrInDict st name v))
  else
    Except.ok (setKeyStr name (DV.val v) st)

/-- Run `__setattr__` and keep the prior instance `__dict__` when the
write raises (the exception propagates before any mutation). -/
def setattrOrKeep (cd st : List (String × DV)) (name : String) (v : Scalar) :
    List (String × DV) :=
  match setattrRes cd st name v with
  | Except.ok st' => st'
  | Except.error _ => st

/-- The instance `__dict__` right after `__init__` of a fresh instance with
no attributes: `attributes`, `_prefix_options` and `_initialized`. -/
def initIDict : List (String × DV) :=
  [("attributes", DV.dictv []), ("_prefix_options", DV.dictv []),
   ("_initialized", DV.val (Scalar.bool true))]

/-- The attribute dict recorded in an instance `__dict__`. -/
def attrsInIDict (st : List (String × DV)) : List (String × Scalar) :=
  match lookupStr "attributes" st with
  | some (DV.dictv d) => d
  | _ => []

/-! ## Specification artifacts used by the proofs -/

/-- The characters of a run list, in order (inverse of `toRuns`). -/
def runsChars : List Run → List Char
  | [] => []
  | Run.ids nm :: rest => nm ++ runsChars rest
  | Run.ch c :: rest => c :: runsChars rest

/-- Every identifier run consists of identifier characters (an invariant of
`toRuns` output). -/
def goodRuns (rs : List Run) : Prop :=
  ∀ nm, Run.ids nm ∈ rs → ∀ c, c ∈ nm → isIdChar c = true

/-- The body a serialized list member parses back to: an empty member has
no children (leaf with empty text), a non-empty one parses to its
normalized mapping. -/
def expectedBody (m : AttrMap) : BodyPre :=
  match m with
  | AttrMap.anil => BodyPre.leaf ""
  | AttrMap.acons k v t => BodyPre.node (normMap (AttrMap.acons k v t))

/-- The bodies a serialized map list parses back to, in order. -/
def bodiesOf : MapList → List BodyPre
  | MapList.mnil => []
  | MapList.mcons m t => expectedBody m :: bodiesOf t

/-- The tagged bodies a well-formed serialized entry parses back to. -/
def entryBodies : AVal → List BodyPre
  | AVal.scalar s => [BodyPre.leaf (renderScalar s)]
  | AVal.amap m => [BodyPre.node (normMap m)]
  | AVal.alist l => bodiesOf l

/-- The tagged body list a well-formed serialized entry contributes. -/
def expectedEntry (k : String) (v : AVal) : List (String × BodyPre) :=
  (entryBodies v).map (fun b => (k, b))

/-- The tagged body list a well-formed serialized mapping parses into. -/
def expectedTagged : AttrMap → List (String × BodyPre)
  | AttrMap.anil => []
  | AttrMap.acons k v t => expectedEntry k v ++ expectedTagged t

/-- The tag groups a well-formed serialized mapping collects into. -/
def groupsOf : AttrMap → List (String × List BodyPre)
  | AttrMap.anil => []
  | AttrMap.acons k v t => (k, entryBodies v) :: groupsOf t

/-! ## Concrete fixtures for witnesses and counterexamples -/

/-- An instance built from `{id: 1, status: "open"}` (§8 of the spec). -/
def sampleRes : Res :=
  Res.mk (RAttrs.rcons "id" (RVal.rscalar (Scalar.int 1))
    (RAttrs.rcons "status" (RVal.rscalar (Scalar.str "open")) RAttrs.rnil)) []

/-- An instance whose `"id"` attribute is present but `0`. -/
def zeroIdRes : Res :=
  Res.mk (RAttrs.rcons "id" (RVal.rscalar (Scalar.int 0)) RAttrs.rnil) []

/-- An instance with a truthy id `5`. -/
def fiveIdRes : Res :=
  Res.mk (RAttrs.rcons "id" (RVal.rscalar (Scalar.int 5)) RAttrs.rnil) []

/-- A text-parse collaborator that fails on every body. -/
def failParse : String → Except UtilError El :=
  fun _ => Except.error UtilError.err

/-- A text-parse collaborator that returns a fixed tree for every body. -/
def constParse (e : El) : String → Except UtilError El :=
  fun _ => Except.ok e

/-- A transport oracle returning a fixed body for every request. -/
def constBody (s : String) : HttpReq → String := fun _ => s

/-- A GET oracle returning a fixed body for every path. -/
def constGet (s : String) : String → String := fun _ => s

/-- A sample parsed response tree `<comment><id>9</id></comment>`. -/
def replyTree : El :=
  El.mk "comment" (ElList.econs (El.mk "id" ElList.enil "9") ElList.enil) ""

/-- A sample parsed empty collection tree `<comments/>`. -/
def emptyCollectionTree : El := El.mk "comments" ElList.enil ""

/-- A class `__dict__` carrying only `_site` (the class attribute
`__setattr__`'s middle branch can hit). -/
def sampleClassDict : List (String × DV) := [("_site", DV.val (Scalar.str ""))]

/-- Instance `__dict__` after `obj.foo = 1` on a freshly initialized
instance. -/
def c4afterFirst : List (String × DV) :=
  setattrOrKeep sampleClassDict initIDict "foo" (Scalar.int 1)

/-- Instance `__dict__` after `obj.foo = 1; obj.foo = 2`. -/
def c4afterSecond : List (String × DV) :=
  setattrOrKeep sampleClassDict c4afterFirst "foo" (Scalar.int 2)

/-- An attribute mapping whose `"items"` value is a singleton list. -/
def c6badA : AttrMap :=
  AttrMap.acons "items"
    (AVal.alist (MapList.mcons
      (AttrMap.acons "a" (AVal.scalar (Scalar.int 1)) AttrMap.anil) MapList.mnil))
    AttrMap.anil

/-- A well-formed attribute mapping: a scalar and a two-member list. -/
def c6goodA : AttrMap :=
  AttrMap.acons "id" (AVal.scalar (Scalar.int 1))
    (AttrMap.acons "tags"
      (AVal.alist (MapList.mcons
        (AttrMap.acons "name" (AVal.scalar (Scalar.str "a")) AttrMap.anil)
        (MapList.mcons
          (AttrMap.acons "name" (AVal.scalar (Scalar.str "b")) AttrMap.anil)
          MapList.mnil)))
      AttrMap.anil)

/-! # Theorems

Support lemmas first, then one theorem per claim (with its witness or
counterexample where required). -/

/-! ## Template-resolver lemmas -/

theorem parseRuns_concat_slash (rs : List Run) :
    parseRuns (rs ++ [Run.ch '/']) = parseRuns rs ++ [Seg.lit '/'] := by
  induction rs using parseRuns.induct with
  | case1 => simp [parseRuns]
  | case2 cs rest ih => simp [parseRuns, ih]
  | case3 => simp [parseRuns]
  | case4 r2 ih => simp [parseRuns, ih]
  | case5 nm r3 h ih => simp only [List.cons_append, parseRuns]; split <;> simp [ih]
  | case6 nm r3 h ih => simp only [List.cons_append, parseRuns]; split <;> simp [ih]
  | case7 r2 hne ih =>
    have hne' : ∀ (nm : List Char) (r3 : List Run),
        r2 ++ [Run.ch '/'] = Run.ids nm :: Run.ch '}' :: r3 → False := by
      intro nm r3 heq
      rcases r2 with _ | ⟨⟨nm'⟩ | ⟨c'⟩, r2'⟩
      · simp at heq
      · rcases r2' with _ | ⟨⟨nm''⟩ | ⟨c''⟩, r2''⟩
        · simp at heq
        · simp at heq
        · simp at heq
          exact hne nm' r2'' (by rw [heq.2.1])
      · simp at heq
    simp only [List.cons_append]
    rw [parseRuns.eq_6 _ hne', parseRuns.eq_6 _ hne, ih]
    simp
  | case8 nm r2 h ih => simp only [List.cons_append, parseRuns]; split <;> simp [ih]
  | case9 nm r2 h ih => simp only [List.cons_append, parseRuns]; split <;> simp [ih]
  | case10 c r2 h1 h2 h3 ih =>
    simp only [List.cons_append]
    rw [parseRuns.eq_8 c _ h1 (fun nm r3 hc _ => h3 hc) h3,
        parseRuns.eq_8 c _ h1 (fun nm r3 hc _ => h3 hc) h3, ih]
    simp
  | case11 c rest h1 h2 h3 h4 h5 h6 ih =>
    have hc : c = '$' → False := by
      intro hc
      rcases rest with _ | ⟨⟨nm⟩ | ⟨c2⟩, r⟩
      · exact h1 hc rfl
      · exact h5 nm r hc rfl
      · exact h6 c2 r hc rfl
    simp only [List.cons_append]
    rw [parseRuns.eq_9 c _ (fun h _ => hc h) (fun _ h _ => hc h) (fun _ _ h _ => hc h)
          (fun _ h _ => hc h) (fun _ _ h _ => hc h) (fun _ _ h _ => hc h),
        parseRuns.eq_9 c _ (fun h _ => hc h) (fun _ h _ => hc h) (fun _ _ h _ => hc h)
          (fun _ h _ => hc h) (fun _ _ h _ => hc h) (fun _ _ h _ => hc h), ih]
    simp

theorem toRuns_concat_notid (cs : List Char) (c : Char) (hc : isIdChar c = false) :
    toRuns (cs ++ [c]) = toRuns cs ++ [Run.ch c] := by
  induction cs with
  | nil => simp [toRuns, hc]
  | cons d cs ih =>
    by_cases hd : isIdChar d
    · rcases htc : toRuns cs with _ | ⟨⟨nm⟩ | ⟨e⟩, r⟩ <;>
        simp [toRuns, hd, htc, ih, hc]
    · simp [toRuns, hd, ih]

theorem strData_append_one (s : String) (c : Char) :
    (s ++ String.singleton c).data = s.data ++ [c] := rfl

theorem strMk_data (s : String) : String.mk s.data = s := rfl

theorem stripTrailingSlash_concat (s : String) :
    stripTrailingSlash (s ++ "/") = s := by
  have h : (s ++ "/").data = s.data ++ ['/'] := rfl
  simp [stripTrailingSlash, h, List.getLast?_concat, List.dropLast_concat, strMk_data]

theorem templateKeys_concat_slash (s : String) :
    templateKeys (s ++ "/") = templateKeys s := by
  have h : (s ++ "/").data = s.data ++ ['/'] := rfl
  have hid : isIdChar '/' = false := by decide
  simp [templateKeys, parseTemplate, h, toRuns_concat_notid _ _ hid,
    parseRuns_concat_slash, segKey]

theorem memStr_cons (k a : String) (l : List String) :
    memStr k (a :: l) = (a = k || memStr k l) := by
  by_cases h : a = k <;> simp [memStr, h]

theorem memStr_iff_mem (k : String) (l : List String) :
    memStr k l = true ↔ k ∈ l := by
  induction l with
  | nil => simp [memStr]
  | cons a t ih =>
    by_cases h : a = k
    · subst h; simp [memStr]
    · simp [memStr_cons, h, ih, Ne.symm h]

theorem renderSegs_congr (f g : String → Option String) :
    ∀ segs : List Seg,
      (∀ k, memStr k (segs.filterMap segKey) = true → f k = g k) →
      segs.map (renderSeg f) = segs.map (renderSeg g)
  | [], _ => rfl
  | seg :: t, h => by
    have ht : ∀ k, memStr k (t.filterMap segKey) = true → f k = g k := by
      intro k hk
      apply h
      cases seg <;> simp [segKey, memStr_cons, hk]
    have hh : renderSeg f seg = renderSeg g seg := by
      cases seg with
      | named n =>
        have : f n = g n := h n (by simp [segKey, memStr_cons])
        simp [renderSeg, this]
      | braced n =>
        have : f n = g n := h n (by simp [segKey, memStr_cons])
        simp [renderSeg, this]
      | lit c => rfl
      | esc => rfl
      | inval => rfl
    simp [hh, renderSegs_congr f g t ht]

theorem toRuns_goodRuns (cs : List Char) : goodRuns (toRuns cs) := by
  induction cs with
  | nil => intro nm h c hc; simp [toRuns] at h
  | cons d cs ih =>
    intro nm hmem c hc
    by_cases hd : isIdChar d
    · rcases htc : toRuns cs with _ | ⟨⟨nm'⟩ | ⟨e⟩, r⟩
      · rw [show toRuns (d :: cs) = [Run.ids [d]] from by simp [toRuns, hd, htc]] at hmem
        simp at hmem
        subst hmem
        simp at hc
        subst hc
        exact hd
      · rw [show toRuns (d :: cs) = Run.ids (d :: nm') :: r from by
            simp [toRuns, hd, htc]] at hmem
        rcases List.mem_cons.mp hmem with heq | hmem2
        · injection heq with h'
          subst h'
          rcases List.mem_cons.mp hc with rfl | hc2
          · exact hd
          · exact ih nm' (by rw [htc]; exact List.mem_cons_self _ _) c hc2
        · exact ih nm (by rw [htc]; exact List.mem_cons_of_mem _ hmem2) c hc
      · rw [show toRuns (d :: cs) = Run.ids [d] :: Run.ch e :: r from by
            simp [toRuns, hd, htc]] at hmem
        rcases List.mem_cons.mp hmem with heq | hmem2
        · injection heq with h'
          subst h'
          simp at hc
          subst hc
          exact hd
        · exact ih nm (by rw [htc]; exact hmem2) c hc
    · rw [show toRuns (d :: cs) = Run.ch d :: toRuns cs from by simp [toRuns, hd]] at hmem
      rcases List.mem_cons.mp hmem with heq | hmem2
      · cases heq
      · exact ih nm hmem2 c hc

theorem goodRuns_tail (r : Run) (rs : List Run) (h : goodRuns (r :: rs)) : goodRuns rs :=
  fun nm hm => h nm (List.mem_cons_of_mem _ hm)

theorem isIdChar_dollar : isIdChar '$' = false := by decide

theorem parseRuns_lit_ne_dollar (rs : List Run) :
    goodRuns rs → ∀ c, Seg.lit c ∈ parseRuns rs → c ≠ '$' := by
  induction rs using parseRuns.induct with
  | case1 => intro _ c h; simp [parseRuns] at h
  | case2 cs rest ih =>
    intro hg c h
    simp only [parseRuns, List.mem_append, List.mem_map] at h
    rcases h with ⟨c', hc', heq⟩ | h
    · have hcs : c' = c := by injection heq
      subst hcs
      have hid2 : isIdChar c' = true := hg cs (List.mem_cons_self _ _) c' hc'
      intro hcc
      rw [hcc] at hid2
      exact absurd hid2 (by decide)
    · exact ih (goodRuns_tail _ _ hg) c h
  | case3 => intro _ c h; simp [parseRuns] at h
  | case4 r2 ih =>
    intro hg c h
    simp only [parseRuns, List.mem_cons] at h
    rcases h with h | h
    · cases h
    · exact ih (goodRuns_tail _ _ (goodRuns_tail _ _ hg)) c h
  | case5 nm r3 hid ih =>
    intro hg c h
    rw [parseRuns.eq_5] at h
    rw [if_pos hid] at h
    rcases List.mem_cons.mp h with h | h
    · cases h
    · exact ih (fun nm' hm => hg nm' (by simp [hm] : _ ∈ _)) c h
  | case6 nm r3 hid ih =>
    intro hg c h
    rw [parseRuns.eq_5] at h
    rw [if_neg hid] at h
    have hnm : ∀ c', c' ∈ nm → isIdChar c' = true :=
      hg nm (by simp)
    have htail : goodRuns r3 := fun nm' hm => hg nm' (by simp [hm])
    simp only [List.mem_cons, List.mem_append, List.mem_map] at h
    rcases h with h | h | ⟨c', hc', heq⟩ | h
    · cases h
    · injection h with h'; subst h'; decide
    · have hcs : c' = c := by injection heq
      subst hcs
      intro hcc
      have hid2 := hnm c' hc'
      rw [hcc] at hid2
      exact absurd hid2 (by decide)
    · rcases h with h | h
      · injection h with h'; subst h'; decide
      · exact ih htail c h
  | case7 r2 hne ih =>
    intro hg c h
    rw [parseRuns.eq_6 _ hne] at h
    rcases List.mem_cons.mp h with h | h
    · cases h
    · rcases List.mem_cons.mp h with h | h
      · injection h with h'; subst h'; decide
      · exact ih (goodRuns_tail _ _ (goodRuns_tail _ _ hg)) c h
  | case8 nm r2 hid ih =>
    intro hg c h
    rw [parseRuns.eq_7] at h
    rw [if_pos hid] at h
    rcases List.mem_cons.mp h with h | h
    · cases h
    · exact ih (fun nm' hm => hg nm' (by simp [hm])) c h
  | case9 nm r2 hid ih =>
    intro hg c h
    rw [parseRuns.eq_7] at h
    rw [if_neg hid] at h
    have hnm : ∀ c', c' ∈ nm → isIdChar c' = true := hg nm (by simp)
    have htail : goodRuns r2 := fun nm' hm => hg nm' (by simp [hm])
    simp only [List.mem_cons, List.mem_append, List.mem_map] at h
    rcases h with h | ⟨c', hc', heq⟩ | h
    · cases h
    · have hcs : c' = c := by injection heq
      subst hcs
      intro hcc
      have hid2 := hnm c' hc'
      rw [hcc] at hid2
      exact absurd hid2 (by decide)
    · exact ih htail c h
  | case10 c0 r2 h1 h2 h3 ih =>
    intro hg c h
    rw [parseRuns.eq_8 c0 _ h1 (fun nm r3 hc _ => h3 hc) h3] at h
    rcases List.mem_cons.mp h with h | h
    · cases h
    · rcases List.mem_cons.mp h with h | h
      · injection h with h'; subst h'; exact fun hcc => h1 hcc
      · exact ih (goodRuns_tail _ _ (goodRuns_tail _ _ hg)) c h
  | case11 c0 rest h1 h2 h3 h4 h5 h6 ih =>
    intro hg c h
    have hc0 : c0 = '$' → False := by
      intro hcc
      rcases rest with _ | ⟨⟨nm⟩ | ⟨c2⟩, r⟩
      · exact h1 hcc rfl
      · exact h5 nm r hcc rfl
      · exact h6 c2 r hcc rfl
    rw [parseRuns.eq_9 c0 _ (fun h _ => hc0 h) (fun _ h _ => hc0 h) (fun _ _ h _ => hc0 h)
          (fun _ h _ => hc0 h) (fun _ _ h _ => hc0 h) (fun _ _ h _ => hc0 h)] at h
    rcases List.mem_cons.mp h with h | h
    · injection h with h'; subst h'; exact fun hcc => hc0 hcc
    · exact ih (goodRuns_tail _ _ hg) c h

theorem chDollar_not_mem_toRuns (cs : List Char) (h : ('$' : Char) ∉ cs) :
    Run.ch '$' ∉ toRuns cs := by
  induction cs with
  | nil => simp [toRuns]
  | cons d cs ih =>
    have hd' : d ≠ '$' := fun hh => h (hh ▸ List.mem_cons_self _ _)
    have hcs : ('$' : Char) ∉ cs := fun hh => h (List.mem_cons_of_mem _ hh)
    intro hmem
    by_cases hd : isIdChar d
    · rcases htc : toRuns cs with _ | ⟨⟨nm'⟩ | ⟨e⟩, r⟩
      · rw [show toRuns (d :: cs) = [Run.ids [d]] from by simp [toRuns, hd, htc]] at hmem
        simp at hmem
      · rw [show toRuns (d :: cs) = Run.ids (d :: nm') :: r from by
            simp [toRuns, hd, htc]] at hmem
        rcases List.mem_cons.mp hmem with heq | hmem2
        · cases heq
        · exact ih hcs (by rw [htc]; exact List.mem_cons_of_mem _ hmem2)
      · rw [show toRuns (d :: cs) = Run.ids [d] :: Run.ch e :: r from by
            simp [toRuns, hd, htc]] at hmem
        rcases List.mem_cons.mp hmem with heq | hmem2
        · cases heq
        · exact ih hcs (by rw [htc]; exact hmem2)
    · rw [show toRuns (d :: cs) = Run.ch d :: toRuns cs from by simp [toRuns, hd]] at hmem
      rcases List.mem_cons.mp hmem with heq | hmem2
      · exact hd' (by injection heq with h'; exact h'.symm)
      · exact ih hcs hmem2

theorem parseRuns_all_literal (rs : List Run) (h : Run.ch '$' ∉ rs) :
    parseRuns rs = (runsChars rs).map Seg.lit := by
  induction rs using parseRuns.induct with
  | case1 => simp [parseRuns, runsChars]
  | case2 cs rest ih =>
    have : Run.ch '$' ∉ rest := fun hh => h (List.mem_cons_of_mem _ hh)
    simp [parseRuns, runsChars, ih this]
  | case3 => exact absurd (List.mem_cons_self _ _) h
  | case4 r2 ih => exact absurd (List.mem_cons_self _ _) h
  | case5 nm r3 hid ih => exact absurd (List.mem_cons_self _ _) h
  | case6 nm r3 hid ih => exact absurd (List.mem_cons_self _ _) h
  | case7 r2 hne ih => exact absurd (List.mem_cons_self _ _) h
  | case8 nm r2 hid ih => exact absurd (List.mem_cons_self _ _) h
  | case9 nm r2 hid ih => exact absurd (List.mem_cons_self _ _) h
  | case10 c r2 h1 h2 h3 ih => exact absurd (List.mem_cons_self _ _) h
  | case11 c rest h1 h2 h3 h4 h5 h6 ih =>
    have hc : c = '$' → False := by
      intro hc
      rcases rest with _ | ⟨⟨nm⟩ | ⟨c2⟩, r⟩
      · exact h1 hc rfl
      · exact h5 nm r hc rfl
      · exact h6 c2 r hc rfl
    have hrest : Run.ch '$' ∉ rest := fun hh => h (List.mem_cons_of_mem _ hh)
    rw [parseRuns.eq_9 c _ (fun h _ => hc h) (fun _ h _ => hc h) (fun _ _ h _ => hc h)
          (fun _ h _ => hc h) (fun _ _ h _ => hc h) (fun _ _ h _ => hc h)]
    simp [runsChars, ih hrest]

theorem runsChars_toRuns (cs : List Char) : runsChars (toRuns cs) = cs := by
  induction cs with
  | nil => simp [toRuns, runsChars]
  | cons d cs ih =>
    by_cases hd : isIdChar d
    · rcases htc : toRuns cs with _ | ⟨⟨nm'⟩ | ⟨e⟩, r⟩
      · rw [show toRuns (d :: cs) = [Run.ids [d]] from by simp [toRuns, hd, htc]]
        rw [htc] at ih
        simp [runsChars] at ih ⊢
        exact ih
      · rw [show toRuns (d :: cs) = Run.ids (d :: nm') :: r from by simp [toRuns, hd, htc]]
        rw [htc] at ih
        simp [runsChars] at ih ⊢
        exact ih
      · rw [show toRuns (d :: cs) = Run.ids [d] :: Run.ch e :: r from by
            simp [toRuns, hd, htc]]
        rw [htc] at ih
        simp [runsChars] at ih ⊢
        exact ih
    · rw [show toRuns (d :: cs) = Run.ch d :: toRuns cs from by simp [toRuns, hd]]
      simp [runsChars, ih]

theorem filterMap_segKey_lits (cs : List Char) :
    (cs.map Seg.lit).filterMap segKey = [] := by
  induction cs with
  | nil => rfl
  | cons c cs ih => simp [segKey, ih]

theorem catStrings_map_singleton (cs : List Char) :
    catStrings (cs.map (fun c => String.singleton c)) = String.mk cs := by
  induction cs with
  | nil => rfl
  | cons c cs ih =>
    show String.singleton c ++ catStrings (cs.map (fun c => String.singleton c)) = _
    rw [ih]
    rfl

theorem mem_data_catStrings (L : List String) (c : Char)
    (h : c ∈ (catStrings L).data) : ∃ s, s ∈ L ∧ c ∈ s.data := by
  induction L with
  | nil => simp [catStrings] at h
  | cons s t ih =>
    have hsplit : (s ++ catStrings t).data = s.data ++ (catStrings t).data := rfl
    rw [show catStrings (s :: t) = s ++ catStrings t from rfl, hsplit] at h
    rcases List.mem_append.mp h with h | h
    · exact ⟨s, List.mem_cons_self _ _, h⟩
    · rcases ih h with ⟨s', hs', hc'⟩
      exact ⟨s', List.mem_cons_of_mem _ hs', hc'⟩

theorem lookupStr_mem {α : Type} (k : String) (M : List (String × α)) (v : α)
    (h : lookupStr k M = some v) : (k, v) ∈ M := by
  induction M with
  | nil => simp [lookupStr] at h
  | cons kv t ih =>
    rcases kv with ⟨k', v'⟩
    by_cases hk : k' = k
    · subst hk
      simp [lookupStr] at h
      subst h
      exact List.mem_cons_self _ _
    · simp [lookupStr, hk] at h
      exact List.mem_cons_of_mem _ (ih h)

theorem data_decomp_of_getLast (l : List Char) (h : l.getLast? = some '/') :
    l = l.dropLast ++ ['/'] := by
  induction l with
  | nil => simp at h
  | cons c t ih =>
    cases t with
    | nil =>
      simp at h
      subst h
      rfl
    | cons d t' =>
      rw [List.getLast?_cons_cons] at h
      have := ih h
      calc c :: d :: t' = c :: ((d :: t').dropLast ++ ['/']) := by rw [← this]
        _ = (c :: d :: t').dropLast ++ ['/'] := by simp

theorem catStrings_render_lits (f : String → Option String) (cs : List Char) :
    catStrings ((cs.map Seg.lit).map (renderSeg f)) = String.mk cs := by
  induction cs with
  | nil => rfl
  | cons c cs ih =>
    show String.singleton c ++ _ = _
    rw [ih]
    rfl

theorem parseTemplate_strip_mem (site : String) :
    (∀ s, s ∈ parseTemplate (stripTrailingSlash site) → s ∈ parseTemplate site) ∧
    (∀ k, memStr k (templateKeys (stripTrailingSlash site)) = true →
      memStr k (templateKeys site) = true) := by
  by_cases hl : site.data.getLast? = some '/'
  · have hdec : site.data = site.data.dropLast ++ ['/'] := data_decomp_of_getLast _ hl
    have hstrip : stripTrailingSlash site = String.mk site.data.dropLast := by
      simp [stripTrailingSlash, hl]
    have hsegs : parseTemplate site =
        parseTemplate (stripTrailingSlash site) ++ [Seg.lit '/'] := by
      show parseRuns (toRuns site.data) = _
      rw [hstrip]
      show _ = parseRuns (toRuns site.data.dropLast) ++ [Seg.lit '/']
      conv => lhs; rw [hdec]
      rw [toRuns_concat_notid _ _ (by decide), parseRuns_concat_slash]
    constructor
    · intro s hs
      rw [hsegs]
      exact List.mem_append_left _ hs
    · intro k hk
      unfold templateKeys
      rw [hsegs]
      simpa [segKey] using hk
  · have hstrip : stripTrailingSlash site = site := by simp [stripTrailingSlash, hl]
    rw [hstrip]
    exact ⟨fun _ h => h, fun _ h => h⟩

/-! ## Claim C5 -/

/-- C5 counterexample: the claim fails as stated on two conjuncts.  The
template `"/posts/"` has no placeholders, yet it does not resolve to
itself (the trailing slash is stripped).  And with the mapping covering all
placeholders of `"/x/$a"` but carrying the value `"$b"`, the resolved
string still contains placeholder syntax (its own placeholder set is
non-empty). -/
theorem c5_counterexample :
    (templateKeys "/posts/" = [] ∧ resolveSitePath "/posts/" [] ≠ "/posts/") ∧
    (templateKeys "/x/$a" = ["a"] ∧
      templateKeys (resolveSitePath "/x/$a" [("a", "$b")]) ≠ []) := by decide

/-- C5 (amended): resolution is a total function; a placeholder absent
from the mapping substitutes to the empty string (binding it explicitly to
`""` changes nothing); a trailing `/` is stripped before resolution
(appending one to a slashless template never changes the result); when
every `$` of the template starts a valid placeholder and no supplied value
contains `$`, the resolved string contains no `$` (hence no placeholder
syntax); and a template with no `$` at all has an empty placeholder set
and resolves to itself minus any trailing slash. -/
theorem c5_amended :
    (∀ (site : String) (M : List (String × String)) (n : String),
      lookupStr n M = none →
      resolveSitePath site ((n, "") :: M) = resolveSitePath site M) ∧
    (∀ (site : String) (M : List (String × String)),
      site.data.getLast? ≠ some '/' →
      resolveSitePath (site ++ "/") M = resolveSitePath site M) ∧
    (∀ (site : String) (M : List (String × String)),
      (∀ seg, seg ∈ parseTemplate site → seg ≠ Seg.esc ∧ seg ≠ Seg.inval) →
      (∀ kv, kv ∈ M → ('$' : Char) ∉ kv.2.data) →
      ('$' : Char) ∉ (resolveSitePath site M).data) ∧
    (∀ (site : String) (M : List (String × String)),
      ('$' : Char) ∉ site.data →
      templateKeys site = [] ∧ resolveSitePath site M = stripTrailingSlash site) := by
  refine ⟨?_, ?_, ?_, ?_⟩
  · intro site M n h
    unfold resolveSitePath
    congr 1
    funext k
    by_cases hk : n = k
    · subst hk
      simp [lookupStr, h]
    · simp [lookupStr, hk]
  · intro site M h
    have hs : stripTrailingSlash site = site := by simp [stripTrailingSlash, h]
    unfold resolveSitePath
    simp only [stripTrailingSlash_concat, templateKeys_concat_slash, hs]
  · intro site M hseg hval hc
    unfold resolveSitePath safeSubstitute at hc
    obtain ⟨piece, hpiece, hcp⟩ := mem_data_catStrings _ _ hc
    rcases List.mem_map.mp hpiece with ⟨seg, hsegmem, rfl⟩
    have htrans := parseTemplate_strip_mem site
    have hsegsite : seg ∈ parseTemplate site := htrans.1 seg hsegmem
    cases seg with
    | lit c0 =>
      have hne : c0 ≠ '$' :=
        parseRuns_lit_ne_dollar _ (toRuns_goodRuns _) c0 hsegmem
      simp [renderSeg, String.singleton] at hcp
      exact hne hcp.symm
    | esc => exact (hseg _ hsegsite).1 rfl
    | inval => exact (hseg _ hsegsite).2 rfl
    | named n =>
      have hkey : memStr n (templateKeys site) = true := by
        apply htrans.2
        rw [memStr_iff_mem]
        exact List.mem_filterMap.mpr ⟨Seg.named n, hsegmem, rfl⟩
      simp only [renderSeg, hkey, if_true] at hcp
      rcases hlk : lookupStr n M with _ | v
      · rw [hlk] at hcp
        simp at hcp
      · rw [hlk] at hcp
        exact hval (n, v) (lookupStr_mem _ _ _ hlk) (by simpa using hcp)
    | braced n =>
      have hkey : memStr n (templateKeys site) = true := by
        apply htrans.2
        rw [memStr_iff_mem]
        exact List.mem_filterMap.mpr ⟨Seg.braced n, hsegmem, rfl⟩
      simp only [renderSeg, hkey, if_true] at hcp
      rcases hlk : lookupStr n M with _ | v
      · rw [hlk] at hcp
        simp at hcp
      · rw [hlk] at hcp
        exact hval (n, v) (lookupStr_mem _ _ _ hlk) (by simpa using hcp)
  · intro site M h
    have hkeys : templateKeys site = [] := by
      unfold templateKeys parseTemplate
      rw [parseRuns_all_literal _ (chDollar_not_mem_toRuns _ h), runsChars_toRuns]
      exact filterMap_segKey_lits _
    refine ⟨hkeys, ?_⟩
    have hstrip : ('$' : Char) ∉ (stripTrailingSlash site).data := by
      by_cases hl : site.data.getLast? = some '/'
      · simp only [stripTrailingSlash, hl, if_pos rfl]
        intro hmem
        exact h ((List.dropLast_sublist site.data).subset hmem)
      · simpa [stripTrailingSlash, hl] using h
    unfold resolveSitePath safeSubstitute parseTemplate
    rw [parseRuns_all_literal _ (chDollar_not_mem_toRuns _ hstrip), runsChars_toRuns,
      catStrings_render_lits]

/-- C5 witness: the amended theorem applied at concrete templates and
mappings, discharging each hypothesis by evaluation. -/
theorem c5_witness :
    resolveSitePath "/x/$a" [("b", "")] = resolveSitePath "/x/$a" [] ∧
    resolveSitePath ("/people" ++ "/") [("a", "1")] = resolveSitePath "/people" [("a", "1")] ∧
    ('$' : Char) ∉ (resolveSitePath "/x/$a" [("a", "5")]).data ∧
    (templateKeys "/people" = [] ∧
      resolveSitePath "/people" [("a", "1")] = stripTrailingSlash "/people") :=
  ⟨c5_amended.1 "/x/$a" [] "b" (by decide),
   c5_amended.2.1 "/people" [("a", "1")] (by decide),
   c5_amended.2.2.1 "/x/$a" [("a", "5")] (by decide) (by decide),
   c5_amended.2.2.2 "/people" [("a", "1")] (by decide)⟩

/-! ## Claim C1 -/

/-- C1 (code-bug demonstration): `_find_one` computes
`path = from_ + query_string` (line 189) but then issues
`get(from_, ...)` (line 190), so the URL-encoded query string is never
appended: the fetched path always equals the bare `from_`, and at
`from_ = "/people/1.xml"`, `kwargs = {foo: "bar"}` it differs from the
path the claim requires. -/
theorem c1_findOne_drops_query :
    (∀ (from_ : String) (kwargs : List (String × Scalar)),
      findOneFetchPath from_ kwargs = from_) ∧
    findOneFetchPath "/people/1.xml" [("foo", Scalar.str "bar")] = "/people/1.xml" ∧
    "/people/1.xml" ++ queryString [("foo", Scalar.str "bar")] = "/people/1.xml?foo=bar" ∧
    findOneFetchPath "/people/1.xml" [("foo", Scalar.str "bar")] ≠
      "/people/1.xml" ++ queryString [("foo", Scalar.str "bar")] :=
  ⟨fun _ _ => rfl, by decide, by decide, by decide⟩

/-! ## Claim C2 -/

/-- C2: whenever the text-parse collaborator fails on the response body
`save` received — for any failure, including the one an empty body causes —
`save` returns with the instance's attribute mapping exactly as it was and
no error reaches the caller (the method returns Python `None`, modelled as
`none`). -/
theorem c2_save_swallows_parse_failure (cls : ResClass) (r : Res)
    (doReq : HttpReq → String) (parseText : String → Except UtilError El)
    (e : UtilError)
    (hfail : parseText (doReq (saveRequest cls r)) = Except.error e) :
    save cls r doReq parseText = (r, none) := by
  simp [save, hfail]

/-- C2 witness: a transport returning an empty body and a parser that
fails on it leave the sample instance untouched. -/
theorem c2_witness :
    save commentClass sampleRes (constBody "") failParse = (sampleRes, none) :=
  c2_save_swallows_parse_failure commentClass sampleRes (constBody "") failParse
    UtilError.err rfl

/-! ## Claim C3 -/

/-- C3 counterexample: an instance whose `"id"` attribute is present (with
value `0`) issues POST, not PUT — `save` dispatches on the truthiness of
`self.id`, not on the presence of the attribute. -/
theorem c3_counterexample :
    lookupR (resAttrs zeroIdRes) "id" = some (RVal.rscalar (Scalar.int 0)) ∧
    (saveRequest commentClass zeroIdRes).method = HttpMethod.post ∧
    (saveRequest commentClass zeroIdRes).method ≠ HttpMethod.put := by decide

/-- C3 (amended): `save()` issues PUT to the instance's element path when
the instance's `id` attribute is present and truthy, and otherwise
(missing, `0`, `''`, `None`, …) issues POST to the collection path, in
both cases with the serialized attributes as body; when the response
parses successfully the entire attribute mapping is replaced by the parsed
attributes and the raw response body is returned. -/
theorem c3_amended (cls : ResClass) (r : Res) (doReq : HttpReq → String)
    (parseText : String → Except UtilError El) :
    (truthyROpt (idOfRes r) = true →
      saveRequest cls r = HttpReq.mk HttpMethod.put
        (elementPathStr cls (rvalStrOpt (idOfRes r)) (resPrefixOptions r) [])
        (some (toXmlString cls r))) ∧
    (truthyROpt (idOfRes r) = false →
      saveRequest cls r = HttpReq.mk HttpMethod.post
        (collectionPath cls (resPrefixOptions r) [])
        (some (toXmlString cls r))) ∧
    (∀ tree, parseText (doReq (saveRequest cls r)) = Except.ok tree →
      save cls r doReq parseText =
        (Res.mk (updateMap (treeToDict tree)) (resPrefixOptions r),
          some (doReq (saveRequest cls r)))) := by
  refine ⟨?_, ?_, ?_⟩
  · intro h
    simp [saveRequest, h]
  · intro h
    simp [saveRequest, h]
  · intro tree h
    simp [save, h]

/-- C3 witness: an instance with id `5` PUTs to its element path; with a
successfully parsed reply the attribute mapping is fully replaced and the
raw body returned. -/
theorem c3_witness :
    truthyROpt (idOfRes fiveIdRes) = true ∧
    saveRequest commentClass fiveIdRes = HttpReq.mk HttpMethod.put
      (elementPathStr commentClass (rvalStrOpt (idOfRes fiveIdRes))
        (resPrefixOptions fiveIdRes) [])
      (some (toXmlString commentClass fiveIdRes)) ∧
    save commentClass fiveIdRes (constBody "ok") (constParse replyTree) =
      (Res.mk (updateMap (treeToDict replyTree)) (resPrefixOptions fiveIdRes),
        some (constBody "ok" (saveRequest commentClass fiveIdRes))) :=
  ⟨by decide,
   (c3_amended commentClass fiveIdRes (constBody "ok") (constParse replyTree)).1 (by decide),
   (c3_amended commentClass fiveIdRes (constBody "ok") (constParse replyTree)).2.2
     replyTree rfl⟩

/-! ## Claim C4 -/

/-- C4 (code-bug demonstration): on an initialized instance the first
write of a fresh field name lands in the attribute mapping, but because
the unconditional final `self.__dict__[name] = value` (line 462) also
recorded it in the instance `__dict__`, a second write of the same name
takes the `name in self.__dict__` branch and leaves `attributes["foo"]` at
the first value — `attributes[name]` does not equal the last written
value.  And a name colliding with class state (`_site`) does not update
that slot either: line 458 assigns into the read-only class-`__dict__`
proxy and raises `TypeError`, so neither dictionary changes. -/
theorem c4_setattr_second_write_stale :
    setattrRes sampleClassDict initIDict "foo" (Scalar.int 1) = Except.ok c4afterFirst ∧
    attrsInIDict c4afterFirst = [("foo", Scalar.int 1)] ∧
    setattrRes sampleClassDict c4afterFirst "foo" (Scalar.int 2) = Except.ok c4afterSecond ∧
    attrsInIDict c4afterSecond = [("foo", Scalar.int 1)] ∧
    lookupStr "foo" c4afterSecond = some (DV.val (Scalar.int 2)) ∧
    setattrRes sampleClassDict initIDict "_site" (Scalar.str "/x") =
      Except.error PyTypeError.err := by
  decide

/-! ## Claim C7 -/

/-- C7: the `Comment` scenario — with no explicit overrides and site
`/posts/$post_id`, the type descriptor computed at definition time has
singular `"comment"` and plural `"comments"` (the inflection of the
singular); `find(1, post_id=5)` splits `post_id` into the prefix options
and issues its GET to `/posts/5/comments/1.xml`. -/
theorem c7_comment_scenario :
    commentClass.singular = "comment" ∧
    commentClass.singular = camelToUnder "Comment" ∧
    commentClass.plural = "comments" ∧
    commentClass.plural = pluralize "comment" ∧
    splitOptions commentClass [("post_id", Scalar.int 5)] =
      ([("post_id", Scalar.int 5)], []) ∧
    findRequestPath commentClass (some (Scalar.int 1)) none [("post_id", Scalar.int 5)] =
      "/posts/5/comments/1.xml" := by decide

/-! ## Claim C8 -/

/-- C8: reading `id` always succeeds, yielding the stored `"id"` value or
`None` when unset; reading any name present in the attribute mapping
yields its stored value (a stored null included); reading any other name
raises `AttributeError` carrying the missing name — so absence is
distinguishable from a stored null. -/
theorem c8_getattr_semantics (r : Res) (name : String) :
    getattrRes r "id" =
      Except.ok ((lookupR (resAttrs r) "id").getD (RVal.rscalar Scalar.null)) ∧
    (∀ v, lookupR (resAttrs r) name = some v → getattrRes r name = Except.ok v) ∧
    (lookupR (resAttrs r) name = none → name ≠ "id" →
      getattrRes r name = Except.error name) := by
  refine ⟨by simp [getattrRes], ?_, ?_⟩
  · intro v hv
    by_cases hn : name = "id"
    · subst hn
      simp [getattrRes, hv]
    · simp [getattrRes, hn, hv]
  · intro hv hn
    simp [getattrRes, hn, hv]

/-- C8 witness: on the `{id: 1, status: "open"}` instance, `status` reads
back `"open"` and `owner` raises `AttributeError("owner")`. -/
theorem c8_witness :
    getattrRes sampleRes "status" = Except.ok (RVal.rscalar (Scalar.str "open")) ∧
    getattrRes sampleRes "owner" = Except.error "owner" :=
  ⟨(c8_getattr_semantics sampleRes "status").2.1 (RVal.rscalar (Scalar.str "open"))
     (by decide),
   (c8_getattr_semantics sampleRes "owner").2.2 (by decide) (by decide)⟩

/-! ## Claim C9 -/

/-- C9: `exists` HEADs the element path built from the split options and
returns exactly a boolean — `true` iff the transport's HEAD call succeeds
and `false` iff it signals `connection.Error`; by totality of the embedded
function the error never propagates. -/
theorem c9_exists_boolean (cls : ResClass) (id_ : Scalar)
    (kwargs : List (String × Scalar)) (headReq : String → Except ConnError Unit) :
    (existsRes cls id_ kwargs headReq = true ↔
      headReq (elementPath cls id_ (splitOptions cls kwargs).1
        (splitOptions cls kwargs).2) = Except.ok ()) ∧
    (existsRes cls id_ kwargs headReq = false ↔
      headReq (elementPath cls id_ (splitOptions cls kwargs).1
        (splitOptions cls kwargs).2) = Except.error ConnError.err) := by
  unfold existsRes
  rcases h : headReq (elementPath cls id_ (splitOptions cls kwargs).1
      (splitOptions cls kwargs).2) with e | u
  · cases e
    simp [h]
  · cases u
    simp [h]

/-! ## Claim C10 -/

/-- C10: id dispatch is by truthiness, not key presence: `find` with id
`0`, `""` or `None` requests the collection path and returns a list of
instances; `save` on an instance whose `"id"` attribute is `0` or `""`
issues POST to the collection path rather than PUT. -/
theorem c10_truthiness_dispatch (cls : ResClass) (kwargs : List (String × Scalar))
    (get : String → String) (parseText : String → Except UtilError El) :
    (∀ i, i = Scalar.int 0 ∨ i = Scalar.str "" ∨ i = Scalar.null →
      findRequestPath cls (some i) none kwargs =
        collectionPath cls (splitOptions cls kwargs).1 (splitOptions cls kwargs).2 ∧
      ∀ tree, parseText (get (findEveryPath cls none kwargs)) = Except.ok tree →
        find cls (some i) none kwargs get parseText =
          Except.ok (Sum.inr (buildList tree (splitOptions cls kwargs).1))) ∧
    (∀ r, idOfRes r = some (RVal.rscalar (Scalar.int 0)) ∨
        idOfRes r = some (RVal.rscalar (Scalar.str "")) →
      (saveRequest cls r).method = HttpMethod.post ∧
      (saveRequest cls r).path = collectionPath cls (resPrefixOptions r) []) := by
  constructor
  · intro i hi
    have hfalse : truthySOpt (some i) = false := by
      rcases hi with rfl | rfl | rfl <;> decide
    constructor
    · simp [findRequestPath, hfalse, findEveryPath]
    · intro tree htree
      simp [find, hfalse, findEvery, htree, Except.map]
  · intro r hr
    have hfalse : truthyROpt (idOfRes r) = false := by
      rcases hr with h | h <;> simp [truthyROpt, h, truthyR, truthy]
    simp [saveRequest, hfalse]

/-- C10 witness: `find` with id `0` on the `Comment` class returns the
parsed (empty) collection as a list, and `save` on an instance with id `0`
POSTs. -/
theorem c10_witness :
    find commentClass (some (Scalar.int 0)) none [] (constGet "")
      (constParse emptyCollectionTree) =
      Except.ok (Sum.inr (buildList emptyCollectionTree
        (splitOptions commentClass []).1)) ∧
    (saveRequest commentClass zeroIdRes).method = HttpMethod.post :=
  ⟨((c10_truthiness_dispatch commentClass [] (constGet "")
      (constParse emptyCollectionTree)).1 (Scalar.int 0) (Or.inl rfl)).2
      emptyCollectionTree rfl,
   ((c10_truthiness_dispatch commentClass [] (constGet "")
      (constParse emptyCollectionTree)).2 zeroIdRes (Or.inl (by decide))).1⟩

/-! ## Round-trip lemmas (claim C6) -/

theorem memStr_append (k : String) (a b : List String) :
    memStr k (a ++ b) = (memStr k a || memStr k b) := by
  induction a with
  | nil => simp [memStr]
  | cons x t ih => by_cases h : x = k <;> simp [memStr_cons, h, ih]

theorem hasKeyA_cons (k k' : String) (v : AVal) (t : AttrMap) :
    hasKeyA (AttrMap.acons k v t) k' = (decide (k = k') || hasKeyA t k') := by
  by_cases h : k = k' <;> simp [hasKeyA, lookupA, h]

theorem parseEls_elAppend : ∀ a b : ElList,
    parseEls (elAppend a b) = parseEls a ++ parseEls b
  | ElList.enil, b => by simp [elAppend, parseEls]
  | ElList.econs e t, b => by
    simp [elAppend, parseEls, parseEls_elAppend t b]

theorem addGroup_new (acc : List (String × List BodyPre)) (k : String) (b : BodyPre)
    (h : memStr k (acc.map Prod.fst) = false) :
    addGroup acc k b = acc ++ [(k, [b])] := by
  induction acc with
  | nil => rfl
  | cons g t ih =>
    rcases g with ⟨t0, bs⟩
    rw [List.map_cons, memStr_cons] at h
    simp only [Bool.or_eq_false_iff, decide_eq_false_iff_not] at h
    have h1 : t0 ≠ k := by
      intro hh
      rw [hh] at h
      simp at h
    simp [addGroup, h1, ih h.2]

theorem addGroup_same (acc : List (String × List BodyPre)) (k : String)
    (bs0 : List BodyPre) (b : BodyPre)
    (h : memStr k (acc.map Prod.fst) = false) :
    addGroup (acc ++ [(k, bs0)]) k b = acc ++ [(k, bs0 ++ [b])] := by
  induction acc with
  | nil => simp [addGroup]
  | cons g t ih =>
    rcases g with ⟨t0, bs⟩
    rw [List.map_cons, memStr_cons] at h
    simp only [Bool.or_eq_false_iff, decide_eq_false_iff_not] at h
    have h1 : t0 ≠ k := by
      intro hh
      rw [hh] at h
      simp at h
    simp [addGroup, h1, ih h.2]

theorem foldl_same_tag (bs : List BodyPre) :
    ∀ (acc : List (String × List BodyPre)) (pre : List BodyPre) (k : String),
    memStr k (acc.map Prod.fst) = false →
    List.foldl (fun a tb => addGroup a tb.1 tb.2) (acc ++ [(k, pre)])
      (bs.map (fun b => (k, b))) = acc ++ [(k, pre ++ bs)] := by
  induction bs with
  | nil =>
    intro acc pre k h
    simp
  | cons b bs ih =>
    intro acc pre k h
    simp only [List.map_cons, List.foldl_cons]
    rw [addGroup_same acc k pre b h, ih acc (pre ++ [b]) k h]
    simp

theorem foldl_entry (v : AVal) (k : String) (acc : List (String × List BodyPre))
    (hwf : wfVal v = true)
    (h : memStr k (acc.map Prod.fst) = false) :
    List.foldl (fun a tb => addGroup a tb.1 tb.2) acc (expectedEntry k v) =
      acc ++ [(k, entryBodies v)] := by
  cases v with
  | scalar s => simp [expectedEntry, entryBodies, addGroup_new acc k _ h]
  | amap m => simp [expectedEntry, entryBodies, addGroup_new acc k _ h]
  | alist l =>
    have hlen : 2 ≤ mlen l := by
      simp only [wfVal, Bool.and_eq_true, decide_eq_true_eq] at hwf
      exact hwf.1
    cases l with
    | mnil => simp [mlen] at hlen
    | mcons m t =>
      simp only [expectedEntry, entryBodies, bodiesOf, List.map_cons, List.foldl_cons]
      rw [addGroup_new acc k _ h, foldl_same_tag (bodiesOf t) acc [expectedBody m] k h]
      simp [bodiesOf]

theorem foldl_expectedTagged : ∀ (m : AttrMap) (acc : List (String × List BodyPre)),
    wfMap m = true →
    (∀ k', hasKeyA m k' = true → memStr k' (acc.map Prod.fst) = false) →
    List.foldl (fun a tb => addGroup a tb.1 tb.2) acc (expectedTagged m) =
      acc ++ groupsOf m
  | AttrMap.anil, acc, _, _ => by simp [expectedTagged, groupsOf]
  | AttrMap.acons k v t, acc, hwf, hacc => by
    have hwf' : hasKeyA t k = false ∧ wfVal v = true ∧ wfMap t = true := by
      simp only [wfMap, Bool.and_eq_true, Bool.not_eq_true'] at hwf
      exact ⟨hwf.1.1, hwf.1.2, hwf.2⟩
    have hk : memStr k (acc.map Prod.fst) = false := by
      apply hacc
      simp [hasKeyA_cons]
    simp only [expectedTagged, groupsOf, List.foldl_append]
    rw [foldl_entry v k acc hwf'.2.1 hk]
    rw [foldl_expectedTagged t (acc ++ [(k, entryBodies v)]) hwf'.2.2 ?_]
    · simp
    · intro k' hk'
      have h2 : k ≠ k' := by
        intro hh
        rw [hh] at hwf'
        rw [hk'] at hwf'
        exact absurd hwf'.1 (by simp)
      have h1 : memStr k' (acc.map Prod.fst) = false := by
        apply hacc
        simp [hasKeyA_cons, hk']
      rw [List.map_append, memStr_append, h1]
      simp [memStr, h2]

theorem bodyMap_expectedBody (m : AttrMap) : bodyMap (expectedBody m) = normMap m := by
  cases m <;> rfl

theorem toMapList_bodies : ∀ l : MapList,
    toMapList ((bodiesOf l).map bodyMap) = normList l
  | MapList.mnil => rfl
  | MapList.mcons m t => by
    simp only [bodiesOf, List.map_cons, toMapList, bodyMap_expectedBody,
      toMapList_bodies t, normList]

theorem finalizeGroup_entry (v : AVal) (hwf : wfVal v = true) :
    finalizeGroup (entryBodies v) = normVal v := by
  cases v with
  | scalar s => rfl
  | amap m => rfl
  | alist l =>
    have hlen : 2 ≤ mlen l := by
      simp only [wfVal, Bool.and_eq_true, decide_eq_true_eq] at hwf
      exact hwf.1
    cases l with
    | mnil => simp [mlen] at hlen
    | mcons m t =>
      cases t with
      | mnil => simp [mlen] at hlen
      | mcons m2 t2 =>
        have h1 : finalizeGroup (entryBodies (AVal.alist
              (MapList.mcons m (MapList.mcons m2 t2)))) =
            AVal.alist (toMapList ((bodiesOf
              (MapList.mcons m (MapList.mcons m2 t2))).map bodyMap)) := by
          show finalizeGroup (expectedBody m :: expectedBody m2 :: bodiesOf t2) = _
          simp [finalizeGroup, bodiesOf]
        rw [h1, toMapList_bodies]
        rfl

theorem entriesToMap_groups : ∀ m : AttrMap, wfMap m = true →
    entriesToMap ((groupsOf m).map (fun g => (g.1, finalizeGroup g.2))) = normMap m
  | AttrMap.anil, _ => rfl
  | AttrMap.acons k v t, hwf => by
    have hwf' : wfVal v = true ∧ wfMap t = true := by
      simp only [wfMap, Bool.and_eq_true, Bool.not_eq_true'] at hwf
      exact ⟨hwf.1.2, hwf.2⟩
    simp only [groupsOf, List.map_cons, entriesToMap, normMap,
      finalizeGroup_entry v hwf'.1, entriesToMap_groups t hwf'.2]

theorem groupFinalize_expected (m : AttrMap) (h : wfMap m = true) :
    groupFinalize (expectedTagged m) = normMap m := by
  unfold groupFinalize collectGroups
  rw [foldl_expectedTagged m [] h (fun _ _ => rfl)]
  simpa using entriesToMap_groups m h

theorem serializeMap_cons_shape (k' : String) (v' : AVal) (t' : AttrMap)
    (hv : wfVal v' = true) :
    ∃ c ct, serializeMap (AttrMap.acons k' v' t') = ElList.econs c ct := by
  cases v' with
  | scalar s => exact ⟨_, _, rfl⟩
  | amap m => exact ⟨_, _, rfl⟩
  | alist l =>
    have hlen : 2 ≤ mlen l := by
      simp only [wfVal, Bool.and_eq_true, decide_eq_true_eq] at hv
      exact hv.1
    cases l with
    | mnil => simp [mlen] at hlen
    | mcons m t => exact ⟨_, _, rfl⟩

theorem toDict_update_attrs (m : AttrMap) : toDictAttrs (updateMap m) = m :=
  @AttrMap.rec (fun v => toDictVal (updateVal v) = v)
    (fun m => toDictAttrs (updateMap m) = m)
    (fun l => toDictList (updateList l) = l)
    (fun _ => rfl)
    (fun m ih => by simp [updateVal, toDictVal, toDictRes, ih])
    (fun l ih => by simp [updateVal, toDictVal, ih])
    rfl
    (fun k v t ihv iht => by simp [updateMap, toDictAttrs, ihv, iht])
    rfl
    (fun m t ihm iht => by simp [updateList, toDictList, toDictRes, ihm, iht])
    m

theorem parseEls_serializeMap (m : AttrMap) :
    wfMap m = true → parseEls (serializeMap m) = expectedTagged m :=
  @AttrMap.rec
    (fun v => wfVal v = true → ∀ k, parseEls (serializeEntry k v) = expectedEntry k v)
    (fun m => wfMap m = true → parseEls (serializeMap m) = expectedTagged m)
    (fun l => wfList l = true → ∀ k,
      parseEls (serializeSiblings k l) = (bodiesOf l).map (fun b => (k, b)))
    (fun s _ k => by
      simp [serializeEntry, parseEls, parseBody, elTag, expectedEntry, entryBodies])
    (fun m ihm hwf k => by
      cases m with
      | anil => exact absurd hwf (by simp [wfVal])
      | acons k' v' t' =>
        have hwf' : wfMap (AttrMap.acons k' v' t') = true := by
          simpa [wfVal] using hwf
        have hv' : wfVal v' = true := by
          simp only [wfMap, Bool.and_eq_true, Bool.not_eq_true'] at hwf'
          exact hwf'.1.2
        obtain ⟨c, ct, hc⟩ := serializeMap_cons_shape k' v' t' hv'
        have hbody : parseBody (El.mk k (serializeMap (AttrMap.acons k' v' t')) "") =
            BodyPre.node (groupFinalize (parseEls
              (serializeMap (AttrMap.acons k' v' t')))) := by
          rw [hc]
          simp [parseBody, parseEls]
        have hwf2 : wfMap (AttrMap.acons k' v' t') = true := by simpa [wfVal] using hwf
        simp only [serializeEntry, parseEls, hbody, ihm hwf2,
          groupFinalize_expected _ hwf2]
        simp [expectedEntry, entryBodies, elTag])
    (fun l ihl hwf k => by
      have hl : wfList l = true := by
        simp only [wfVal, Bool.and_eq_true, decide_eq_true_eq] at hwf
        exact hwf.2
      simp only [serializeEntry]
      rw [ihl hl k]
      simp [expectedEntry, entryBodies])
    (fun _ => rfl)
    (fun k v t ihv iht hwf => by
      have hwf' : hasKeyA t k = false ∧ wfVal v = true ∧ wfMap t = true := by
        simp only [wfMap, Bool.and_eq_true, Bool.not_eq_true'] at hwf
        exact ⟨hwf.1.1, hwf.1.2, hwf.2⟩
      simp only [serializeMap, expectedTagged]
      rw [parseEls_elAppend, ihv hwf'.2.1 k, iht hwf'.2.2])
    (fun _ _ => rfl)
    (fun m t ihm iht hwf k => by
      have hwf' : wfMap m = true ∧ wfList t = true := by
        simpa [wfList, Bool.and_eq_true] using hwf
      have hhead : parseBody (El.mk k (serializeMap m) "") = expectedBody m := by
        cases m with
        | anil => rfl
        | acons k' v' t' =>
          have hv' : wfVal v' = true := by
            have hm := hwf'.1
            simp only [wfMap, Bool.and_eq_true, Bool.not_eq_true'] at hm
            exact hm.1.2
          obtain ⟨c, ct, hc⟩ := serializeMap_cons_shape k' v' t' hv'
          have hbody : parseBody (El.mk k (serializeMap (AttrMap.acons k' v' t')) "") =
              BodyPre.node (groupFinalize (parseEls
                (serializeMap (AttrMap.acons k' v' t')))) := by
            rw [hc]
            simp [parseBody, parseEls]
          rw [hbody, ihm hwf'.1, groupFinalize_expected _ hwf'.1]
          rfl
      simp only [serializeSiblings, parseEls, bodiesOf, List.map_cons, hhead,
        iht hwf'.2 k, elTag])
    m

/-! ## Claim C6 -/

/-- C6 counterexample: for the mapping `{items: [{a: 1}]}` whose `items`
value is a singleton list of mappings, serializing the instance built from
it and parsing the result back yields `{items: {a: 1}}` — the lone sibling
parses as a nested mapping, not a one-element list — so the round trip
reproduces neither the mapping nor its coercion-normalized form. -/
theorem c6_counterexample :
    treeToDict (toXmlTree commentClass (initRes c6badA [])) =
      AttrMap.acons "items"
        (AVal.amap (AttrMap.acons "a" (AVal.scalar (Scalar.int 1)) AttrMap.anil))
        AttrMap.anil ∧
    treeToDict (toXmlTree commentClass (initRes c6badA [])) ≠ c6badA ∧
    treeToDict (toXmlTree commentClass (initRes c6badA [])) ≠ normMap c6badA := by
  decide

/-- C6 (amended): `to_dict()` of an instance constructed from `A` equals
`A` unconditionally; and for well-formed `A` (duplicate-free keys, every
nested mapping non-empty, every list with at least two members so repeated
siblings signal a collection), serializing the instance built from `A` and
parsing the tree back through the same converter reproduces `A` with the
same keys, nesting and list order, scalars normalized by one
render/coerce round trip ("equal after coercion"). -/
theorem c6_amended (cls : ResClass) (A : AttrMap) (po : List (String × Scalar)) :
    toDictRes (initRes A po) = A ∧
    (wfMap A = true →
      treeToDict (toXmlTree cls (initRes A po)) = normMap A) := by
  have h1 : toDictRes (initRes A po) = A := toDict_update_attrs A
  refine ⟨h1, fun hwf => ?_⟩
  unfold treeToDict
  rw [show elChildren (toXmlTree cls (initRes A po)) = serializeMap A from by
      simp [toXmlTree, elChildren, h1]]
  rw [parseEls_serializeMap A hwf, groupFinalize_expected A hwf]

/-- C6 witness: the amended theorem at a concrete well-formed mapping with
a nested two-member list. -/
theorem c6_witness :
    toDictRes (initRes c6goodA []) = c6goodA ∧
    treeToDict (toXmlTree commentClass (initRes c6goodA [])) = normMap c6goodA :=
  ⟨(c6_amended commentClass c6goodA []).1,
   (c6_amended commentClass c6goodA []).2 (by decide)⟩
